import Mathlib

/-!
Verification development for the device-routing and resource-allocation core
of a VMM device model (crate `vmm-device`).

The definitions below are shallow embeddings of:
  * `src/device.rs`        -- data model (resource records, descriptors)
  * `src/device_manager.rs`-- `DeviceManager` (registration, unregistration,
                              PIO/MMIO dispatch)
  * `src/pci_bus.rs`       -- `PciBus` (legacy two-register configuration
                              protocol)
  * `src/dummy_device.rs`  -- the concrete `PciDevice` register-file semantics

Machine integers (`u32`, `u64`, `usize`) are modelled as `Nat` with explicit
`% 2^w` / masking where overflow matters; byte buffers are `List Nat` whose
elements are byte values (< 256).  `BTreeMap<Range, _>` is modelled as an
association list sorted strictly by `Range.base` (the Rust `Ord` for `Range`
compares the base alone); `HashMap<String, _>` as an association list.
-/

namespace VmmDevice

/-! ## Data model (`src/device.rs`) -/

/-- `IoType` from `device.rs`: Port I/O, memory I/O, or non-exit
physically backed mmap I/O. -/
inductive IoType where
  | Pio
  | Mmio
  | PhysicalMmio
deriving DecidableEq, Repr

/-- `IoResource` from `device.rs`: optional base address (`Option<GuestAddress>`),
size (`GuestUsize`), and resource type. -/
structure IoResource where
  addr : Option Nat
  size : Nat
  res_type : IoType
deriving DecidableEq, Repr

/-- `IrqResource(pub Option<u32>)` from `device.rs`. -/
structure IrqResource where
  line : Option Nat
deriving DecidableEq, Repr

/-- A device handle.  In the source devices are `Arc<Mutex<dyn Device>>` trait
objects; for the manager's bookkeeping only the handle identity and the string
returned by `Device::name()` matter, so a handle is modelled as an identity
tag plus its reported name. -/
structure Dev where
  id : Nat
  name : String
deriving DecidableEq, Repr

/-- `Range(pub GuestAddress, pub GuestUsize)` from `device_manager.rs`.
Its `Ord`/`PartialEq` instances compare the base (`self.0`) alone. -/
structure Range where
  base : Nat
  size : Nat
deriving DecidableEq, Repr

/-- `Error` from `device_manager.rs`. -/
inductive Error where
  | Overlap
  | Oversize
  | NonePIOAddress
  | Exist
  | NonExist
  | AllocateIrq
deriving DecidableEq, Repr

/-- `DeviceDescriptor` from `device.rs`. -/
structure DeviceDescriptor where
  name : String
  device : Dev
  parent_bus : Option Dev
  resource : List IoResource
deriving DecidableEq, Repr

/-! ## System allocator

Modelled from the spec: the concrete allocator is the external
`vm_allocator::SystemAllocator` crate, which is not part of this repository's
sources; spec §6 fixes its interface (`allocate_port_io(requested_base, size)
-> optional base`, `allocate_memory_io(optional_requested_base, size) ->
optional base`, `free_port_io`, `free_memory_io`, `allocate_interrupt() ->
optional line`, all side-effecting and "assumed never to hand out overlapping
ranges").  The state is the multiset of allocated (base, size) pairs per pool
plus an interrupt-line counter; the internal placement algorithm for
base-less memory requests is explicitly out of scope (spec §1), so
auto-placement here deterministically appends past the end of the pool. -/
structure SystemAllocator where
  ioAllocated : List (Nat × Nat)
  mmioAllocated : List (Nat × Nat)
  nextIrq : Nat
  lastIrq : Nat
deriving DecidableEq, Repr

/-- Interval disjointness of two (base, size) pairs. -/
def rangesDisjoint (r1 r2 : Nat × Nat) : Bool :=
  decide (r1.1 + r1.2 ≤ r2.1 ∨ r2.1 + r2.2 ≤ r1.1)

/-- Modelled from the spec: `allocate_port_io(requested_base, size)` succeeds
(at the requested base) iff the request does not overlap an allocated range. -/
def SystemAllocator.allocate_io_addresses (a : SystemAllocator) (base size : Nat) :
    Option Nat × SystemAllocator :=
  if a.ioAllocated.all (fun r => rangesDisjoint (base, size) r) then
    (some base, { a with ioAllocated := (base, size) :: a.ioAllocated })
  else
    (none, a)

/-- Modelled from the spec: `allocate_memory_io(optional_requested_base, size)`;
a concrete base behaves like the port pool, a missing base is auto-placed
past the end of every allocated range. -/
def SystemAllocator.allocate_mmio_addresses (a : SystemAllocator) (addr : Option Nat)
    (size : Nat) : Option Nat × SystemAllocator :=
  match addr with
  | some base =>
      if a.mmioAllocated.all (fun r => rangesDisjoint (base, size) r) then
        (some base, { a with mmioAllocated := (base, size) :: a.mmioAllocated })
      else
        (none, a)
  | none =>
      let base := (a.mmioAllocated.map (fun r => r.1 + r.2)).foldr max 0
      (some base, { a with mmioAllocated := (base, size) :: a.mmioAllocated })

/-- Remove the first occurrence of a (base, size) pair from a pool. -/
def erasePair : List (Nat × Nat) → (Nat × Nat) → List (Nat × Nat)
  | [], _ => []
  | x :: t, v => if x = v then t else x :: erasePair t v

/-- Modelled from the spec: `free_port_io(base, size)`. -/
def SystemAllocator.free_io_addresses (a : SystemAllocator) (base size : Nat) :
    SystemAllocator :=
  { a with ioAllocated := erasePair a.ioAllocated (base, size) }

/-- Modelled from the spec: `free_memory_io(base, size)`. -/
def SystemAllocator.free_mmio_addresses (a : SystemAllocator) (base size : Nat) :
    SystemAllocator :=
  { a with mmioAllocated := erasePair a.mmioAllocated (base, size) }

/-- Modelled from the spec: `allocate_interrupt() -> optional line`; hands out
consecutive lines and fails when the pool `[nextIrq, lastIrq]` is exhausted. -/
def SystemAllocator.allocate_irq (a : SystemAllocator) : Option Nat × SystemAllocator :=
  if a.nextIrq ≤ a.lastIrq then
    (some a.nextIrq, { a with nextIrq := a.nextIrq + 1 })
  else
    (none, a)

/-! ## Range maps (`BTreeMap<Range, Arc<Mutex<dyn Device>>>`)

A `BTreeMap` keyed by `Range` (whose order is by base alone) is an
association list sorted strictly by base.  `insert` replaces the value and
returns the old one when an equal key (same base) is present, keeping the
originally stored key; `remove` removes the entry with the given base and
returns its value. -/

/-- `BTreeMap::insert` on the sorted association list. -/
def btInsert (l : List (Range × Dev)) (r : Range) (d : Dev) :
    List (Range × Dev) × Option Dev :=
  match l with
  | [] => ([(r, d)], none)
  | (r', d') :: t =>
      if r.base < r'.base then ((r, d) :: (r', d') :: t, none)
      else if r.base = r'.base then ((r', d) :: t, some d')
      else
        let (t', old) := btInsert t r d
        ((r', d') :: t', old)

/-- `BTreeMap::remove` on the sorted association list (keyed by base). -/
def btRemove (l : List (Range × Dev)) (r : Range) :
    List (Range × Dev) × Option Dev :=
  match l with
  | [] => ([], none)
  | (r', d') :: t =>
      if r.base < r'.base then ((r', d') :: t, none)
      else if r.base = r'.base then (t, some d')
      else
        let (t', old) := btRemove t r
        ((r', d') :: t', old)

/-! ## Device manager (`src/device_manager.rs`) -/

/-- `DeviceManager`: allocator handle, name registry, and the two range maps. -/
structure DeviceManager where
  resource : SystemAllocator
  devices : List (String × DeviceDescriptor)
  mmio_bus : List (Range × Dev)
  pio_bus : List (Range × Dev)
deriving DecidableEq, Repr

/-- `HashMap::remove` for the name registry: removes the entry with the given
name and returns its descriptor. -/
def hmRemove (l : List (String × DeviceDescriptor)) (name : String) :
    List (String × DeviceDescriptor) × Option DeviceDescriptor :=
  match l with
  | [] => ([], none)
  | (n, d) :: t =>
      if n = name then (t, some d)
      else
        let (t', r) := hmRemove t name
        ((n, d) :: t', r)

/-- Result of the allocation loop in `DeviceManager::allocate_resources`:
either every request was allocated (`okAll`, with the updated vector), a
`Pio` request without a base was hit (`pioNone`, early return, with the
vector as mutated so far), or an allocation failed (`broke`), carrying the
updated prefix that was successfully allocated (`alloc_idx` elements) and
the failed element (its `addr` now `None`) with the untouched tail. -/
inductive AllocPhase where
  | okAll (a : SystemAllocator) (upd : List IoResource)
  | pioNone (a : SystemAllocator) (upd : List IoResource)
  | broke (a : SystemAllocator) (alloc : List IoResource) (tail : List IoResource)
deriving DecidableEq, Repr

/-- Continue the allocation loop after a successful allocation of `res'`. -/
def allocStep (res' : IoResource) : AllocPhase → AllocPhase
  | .okAll a upd => .okAll a (res' :: upd)
  | .pioNone a upd => .pioNone a (res' :: upd)
  | .broke a alloc tail => .broke a (res' :: alloc) tail

/-- The `for res in resource.iter_mut()` loop of
`DeviceManager::allocate_resources` (lines 111-133): for `Pio` a missing base
is an immediate `NonePIOAddress` return, otherwise the allocator is asked and
the element's `addr` is overwritten with the reply; a `None` reply breaks the
loop. -/
def allocLoop (a : SystemAllocator) : List IoResource → AllocPhase
  | [] => .okAll a []
  | res :: rest =>
      match res.res_type with
      | .Pio =>
          match res.addr with
          | none => .pioNone a (res :: rest)
          | some base =>
              let pr := a.allocate_io_addresses base res.size
              match pr.1 with
              | none => .broke pr.2 [] ({ res with addr := none } :: rest)
              | some b => allocStep { res with addr := some b } (allocLoop pr.2 rest)
      | .Mmio =>
          let pr := a.allocate_mmio_addresses res.addr res.size
          match pr.1 with
          | none => .broke pr.2 [] ({ res with addr := none } :: rest)
          | some b => allocStep { res with addr := some b } (allocLoop pr.2 rest)
      | .PhysicalMmio =>
          let pr := a.allocate_mmio_addresses res.addr res.size
          match pr.1 with
          | none => .broke pr.2 [] ({ res with addr := none } :: rest)
          | some b => allocStep { res with addr := some b } (allocLoop pr.2 rest)

/-- `DeviceManager::free_resources` effect on the allocator: for each resource,
free its pool range at `res.addr.unwrap()` (the unwrap is only reached on
resources holding an allocated address; `getD 0` stands for it). -/
def freeResourcesAlloc (a : SystemAllocator) (rs : List IoResource) : SystemAllocator :=
  rs.foldl
    (fun a res =>
      match res.res_type with
      | .Pio => a.free_io_addresses (res.addr.getD 0) res.size
      | .Mmio => a.free_mmio_addresses (res.addr.getD 0) res.size
      | .PhysicalMmio => a.free_mmio_addresses (res.addr.getD 0) res.size)
    a

/-- `DeviceManager::free_resources` (lines 145-154). -/
def DeviceManager.free_resources (m : DeviceManager) (rs : List IoResource) :
    DeviceManager :=
  { m with resource := freeResourcesAlloc m.resource rs }

/-- `DeviceManager::allocate_resources` (lines 111-143): run the loop; on
full success return `Ok`, on a missing PIO base return `NonePIOAddress`
without freeing anything, on an allocation failure free the successfully
allocated prefix and return `Overlap`.  Also returns the resource vector as
mutated in place by the loop. -/
def DeviceManager.allocate_resources (m : DeviceManager) (res : List IoResource) :
    DeviceManager × List IoResource × Except Error Unit :=
  match allocLoop m.resource res with
  | .okAll a upd => ({ m with resource := a }, upd, .ok ())
  | .pioNone a upd => ({ m with resource := a }, upd, .error .NonePIOAddress)
  | .broke a alloc tail =>
      (DeviceManager.free_resources { m with resource := a } alloc,
       alloc ++ tail, .error .Overlap)

/-- `DeviceManager::register_resource` (lines 156-185): insert each `Pio` /
`Mmio` resource's range into the matching map (skipping `PhysicalMmio`);
if the map already held the key the insertion has replaced the value and the
call stops with `Overlap`. -/
def DeviceManager.register_resource (m : DeviceManager) (dev : Dev) :
    List IoResource → DeviceManager × Except Error Unit
  | [] => (m, .ok ())
  | res :: rest =>
      match res.res_type with
      | .Pio =>
          let p := btInsert m.pio_bus ⟨res.addr.getD 0, res.size⟩ dev
          match p.2 with
          | some _ => ({ m with pio_bus := p.1 }, .error .Overlap)
          | none => DeviceManager.register_resource { m with pio_bus := p.1 } dev rest
      | .Mmio =>
          let p := btInsert m.mmio_bus ⟨res.addr.getD 0, res.size⟩ dev
          match p.2 with
          | some _ => ({ m with mmio_bus := p.1 }, .error .Overlap)
          | none => DeviceManager.register_resource { m with mmio_bus := p.1 } dev rest
      | .PhysicalMmio => DeviceManager.register_resource m dev rest

instance exceptDecEq {ε α : Type} [DecidableEq ε] [DecidableEq α] :
    DecidableEq (Except ε α)
  | .error e1, .error e2 =>
      if h : e1 = e2 then isTrue (by rw [h])
      else isFalse (fun hc => h (Except.error.inj hc))
  | .error _, .ok _ => isFalse (fun hc => Except.noConfusion hc)
  | .ok _, .error _ => isFalse (fun hc => Except.noConfusion hc)
  | .ok a1, .ok a2 =>
      if h : a1 = a2 then isTrue (by rw [h])
      else isFalse (fun hc => h (Except.ok.inj hc))

/-- Outcome of `DeviceManager::register_device`: the manager afterwards, the
resource vector as mutated in place, the arguments of the (at most one)
`set_resources` call made on the device, and the returned `Result`. -/
structure RegisterOutcome where
  mgr : DeviceManager
  upd : List IoResource
  setRes : Option (List IoResource × Option IrqResource)
  result : Except Error Unit
deriving DecidableEq, Repr

/-- The trailing descriptor insertion of `register_device` (lines 229-231
plus `insert`, lines 88-95): error `Exist` on a name collision. -/
def registerFinish (m : DeviceManager) (dev : Dev) (parent : Option Dev)
    (upd : List IoResource) (call : Option (List IoResource × Option IrqResource)) :
    RegisterOutcome :=
  if (m.devices.lookup dev.name).isSome then
    ⟨m, upd, call, .error .Exist⟩
  else
    ⟨{ m with devices := (dev.name, ⟨dev.name, dev, parent, upd⟩) :: m.devices },
      upd, call, .ok ()⟩

/-- The part of `register_device` after resource registration (lines
205-231): the `match interrupt` block (`Some(Some _)` fails with
`AllocateIrq`; `Some(None)` obtains a line from the allocator and records
the `set_resources` call; `None` records the call without an interrupt),
followed by descriptor insertion. -/
def regAfterRR (dev : Dev) (parent : Option Dev) (irq : Option IrqResource)
    (upd : List IoResource) : DeviceManager × Except Error Unit → RegisterOutcome
  | (m2, .error _) => ⟨m2, upd, none, .error .Overlap⟩
  | (m2, .ok ()) =>
      match irq with
      | some ⟨some _⟩ => ⟨m2, upd, none, .error .AllocateIrq⟩
      | some ⟨none⟩ =>
          registerFinish { m2 with resource := (m2.resource.allocate_irq).2 } dev
            parent upd (some (upd, some ⟨(m2.resource.allocate_irq).1⟩))
      | none => registerFinish m2 dev parent upd (some (upd, none))

/-- The part of `register_device` after resource allocation (lines 200-231):
pass any allocation error through, otherwise register the ranges and
continue. -/
def regAfterAlloc (dev : Dev) (parent : Option Dev) (irq : Option IrqResource) :
    DeviceManager × List IoResource × Except Error Unit → RegisterOutcome
  | (m1, upd, .error e) => ⟨m1, upd, none, .error e⟩
  | (m1, upd, .ok ()) => regAfterRR dev parent irq upd (m1.register_resource dev upd)

/-- `DeviceManager::register_device` (lines 188-232). -/
def DeviceManager.register_device (m : DeviceManager) (dev : Dev)
    (parent : Option Dev) (res : List IoResource) (interrupt : Option IrqResource) :
    RegisterOutcome :=
  regAfterAlloc dev parent interrupt (m.allocate_resources res)

/-- The per-resource range-map removals of `unregister_device`
(lines 239-247): entries are removed only for resources holding an address,
and only for `Pio`/`Mmio` kinds. -/
def removeEntries (m : DeviceManager) : List IoResource → DeviceManager
  | [] => m
  | res :: rest =>
      let m' :=
        if res.addr.isSome then
          match res.res_type with
          | .Pio => { m with pio_bus := (btRemove m.pio_bus ⟨res.addr.getD 0, res.size⟩).1 }
          | .Mmio => { m with mmio_bus := (btRemove m.mmio_bus ⟨res.addr.getD 0, res.size⟩).1 }
          | .PhysicalMmio => m
        else m
      removeEntries m' rest

/-- `DeviceManager::unregister_device` (lines 235-254). -/
def DeviceManager.unregister_device (m : DeviceManager) (dev : Dev) :
    DeviceManager × Except Error Unit :=
  match hmRemove m.devices dev.name with
  | (devices', some descriptor) =>
      let m1 := { m with devices := devices' }
      let m2 := removeEntries m1 descriptor.resource
      (m2.free_resources descriptor.resource, .ok ())
  | (_, none) => (m, .error .NonExist)

/-- Scan for the first entry (in the given order) whose base is at or below
`addr`; `first_before` runs it over the reversed (descending) map. -/
def firstBeforeAux (addr : Nat) : List (Range × Dev) → Option (Range × Dev)
  | [] => none
  | (r, d) :: t => if r.base ≤ addr then some (r, d) else firstBeforeAux addr t

/-- `DeviceManager::first_before` (lines 256-280). -/
def DeviceManager.first_before (m : DeviceManager) (addr : Nat) (io_type : IoType) :
    Option (Range × Dev) :=
  match io_type with
  | .Pio => firstBeforeAux addr m.pio_bus.reverse
  | .Mmio => firstBeforeAux addr m.mmio_bus.reverse
  | .PhysicalMmio => none

/-- `DeviceManager::get_device` (lines 283-290). -/
def DeviceManager.get_device (m : DeviceManager) (addr : Nat) (io_type : IoType) :
    Option Dev :=
  match m.first_before addr io_type with
  | some (r, d) => if addr - r.base < r.size then some d else none
  | none => none

/-- `DeviceManager::read` (lines 297-306): `&self` receiver, so the manager
state is returned unchanged; `Ok (d, addr)` records that device `d`'s `read`
was invoked with the unmodified absolute address `addr`. -/
def DeviceManager.read (m : DeviceManager) (addr : Nat) (io_type : IoType) :
    DeviceManager × Except Error (Dev × Nat) :=
  match m.get_device addr io_type with
  | some d => (m, .ok (d, addr))
  | none => (m, .error .NonExist)

/-- `DeviceManager::write` (lines 313-322); same dispatch as `read`. -/
def DeviceManager.write (m : DeviceManager) (addr : Nat) (io_type : IoType) :
    DeviceManager × Except Error (Dev × Nat) :=
  match m.get_device addr io_type with
  | some d => (m, .ok (d, addr))
  | none => (m, .error .NonExist)

/-! ## Configuration bus (`src/pci_bus.rs`)

Child devices are `Arc<Mutex<PciDevice>>` trait objects whose concrete
register-file semantics is the repository's `DummyPciDevice`
(`src/dummy_device.rs`): a `[u32; 64]` register file, `config_register_read`
indexing it and `config_register_write` merging `data[0]` under a mask.
`PciBus::config_address_read` / `config_address_write` below are the methods
at lines 68-115 of `pci_bus.rs`; the `IoOps` impl for `PciBus`
(lines 120-167) is a verbatim copy of the same two bodies. -/

/-- The configuration register file of a child PCI device
(`DummyPciDevice.config_regs : [u32; 64]`). -/
structure PciDevState where
  config_regs : List Nat
deriving DecidableEq, Repr

/-- `DummyPciDevice::config_register_read`: `self.config_regs[reg_idx]`
(the decoded register index is < 64, inside the register file). -/
def config_register_read (d : PciDevState) (reg_idx : Nat) : Nat :=
  d.config_regs.getD reg_idx 0

/-- `DummyPciDevice::config_register_write`:
`*r = *r & (0xffu32 << offset) | data[0]` when `reg_idx` is in range,
otherwise a no-op (the source prints a message). -/
def config_register_write (d : PciDevState) (reg_idx : Nat) (offset : Nat)
    (data : List Nat) : PciDevState :=
  match d.config_regs.get? reg_idx with
  | some r =>
      { d with config_regs :=
          d.config_regs.set reg_idx ((r &&& (0xff <<< offset)) ||| data.headD 0) }
  | none => d

/-- `PciBus`: the child device vector and the 32-bit `config_address_reg`. -/
structure PciBus where
  devices : List PciDevState
  config_address_reg : Nat
deriving DecidableEq, Repr

/-- `PciBus::parse_config_address` (lines 28-46): split the 32-bit word into
(bus, device, function, register) fields. -/
def parse_config_address (config_address : Nat) : Nat × Nat × Nat × Nat :=
  let bus_number := (config_address >>> 16) &&& 0x00ff
  let device_number := (config_address >>> 11) &&& 0x1f
  let function_number := (config_address >>> 8) &&& 0x07
  let register_number := (config_address >>> 2) &&& 0x3f
  (bus_number, device_number, function_number, register_number)

/-- `self.devices.get(device - 1)`: `device` is a `usize`, so `device - 1`
wraps modulo `2^64` when `device = 0` (release-profile Rust semantics; a
debug build would panic on the overflow). -/
def devSlotIndex (device : Nat) : Nat :=
  (device + (2 ^ 64 - 1)) % 2 ^ 64

/-- `PciBus::set_config_address` (lines 49-66).  Writes that would run past
the 4-byte register or whose length is not 1/2/4 are dropped.  The shift
amounts follow release-profile Rust `u32` shifts, which wrap the amount
modulo 32 (the `data.len() == 2`, `offset == 2` case shifts by 32; a debug
build would panic there). -/
def set_config_address (b : PciBus) (offset : Nat) (data : List Nat) : PciBus :=
  if offset + data.length > 4 then b
  else
    match data.length with
    | 1 =>
        let mask := (0xff : Nat) <<< (offset * 8)
        let value := (data.getD 0 0) <<< (offset * 8)
        { b with config_address_reg := (b.config_address_reg &&& (0xffffffff ^^^ mask)) ||| value }
    | 2 =>
        let mask := ((0xffff : Nat) <<< (offset * 16 % 32)) % 2 ^ 32
        let value := (((data.getD 1 0) <<< 8 ||| data.getD 0 0) <<< (offset * 16 % 32)) % 2 ^ 32
        { b with config_address_reg := (b.config_address_reg &&& (0xffffffff ^^^ mask)) ||| value }
    | 4 =>
        let mask := (0xffffffff : Nat)
        let value := data.getD 0 0 ||| (data.getD 1 0) <<< 8 ||| (data.getD 2 0) <<< 16 |||
          (data.getD 3 0) <<< 24
        { b with config_address_reg := (b.config_address_reg &&& (0xffffffff ^^^ mask)) ||| value }
    | _ => b

/-- `PciBus::config_address_read` (lines 68-95), identically `IoOps::read`
(lines 121-148).  Resolves the 32-bit word selected by `addr` (the address
register itself for ports 0xcf8-0xcfb, the addressed child register for
0xcfc-0xcff, all-ones otherwise), then copies the addressed byte lanes into
the buffer, or fills the buffer with 0xff if the access would cross the
4-byte boundary.  Returns the buffer contents after the call. -/
def config_address_read (b : PciBus) (addr : Nat) (data : List Nat) : List Nat :=
  let value : Nat :=
    if 0xcf8 ≤ addr ∧ addr ≤ 0xcfb then b.config_address_reg
    else if 0xcfc ≤ addr ∧ addr ≤ 0xcff then
      let p := parse_config_address (b.config_address_reg &&& 0x7fffffff)
      let device := p.2.1
      let register := p.2.2.2
      match b.devices.get? (devSlotIndex device) with
      | none => 0xffffffff
      | some d => config_register_read d register
    else 0xffffffff
  let start := (addr - 0xcf8) % 4
  if start + data.length ≤ 4 then
    (List.range data.length).map (fun i => (value >>> ((start + i) * 8)) &&& 0xff)
  else
    data.map (fun _ => 0xff)

/-- `PciBus::config_address_write` (lines 98-115), identically `IoOps::write`
(lines 150-167).  Ports 0xcf8-0xcfb merge into the address register; ports
0xcfc-0xcff forward to the addressed child device, but only when bit 31 of
the address register (the enable bit) is set, and only when the slot holds a
device. -/
def config_address_write (b : PciBus) (addr : Nat) (data : List Nat) : PciBus :=
  if 0xcf8 ≤ addr ∧ addr ≤ 0xcfb then set_config_address b (addr - 0xcf8) data
  else if 0xcfc ≤ addr ∧ addr ≤ 0xcff then
    if b.config_address_reg &&& 0x80000000 = 0 then b
    else
      let p := parse_config_address (b.config_address_reg &&& 0x7fffffff)
      let device := p.2.1
      let register := p.2.2.2
      match b.devices.get? (devSlotIndex device) with
      | none => b
      | some d =>
          let d' := config_register_write d register (addr - 0xcfc) data
          { b with devices := b.devices.set (devSlotIndex device) d' }
  else b

/-- The range map holding the registered ranges of an I/O kind:
`Pio` and `Mmio` have their maps; `PhysicalMmio` ranges are never placed in
any map (`register_resource` skips them), so that kind has no registered
ranges. -/
def busOf (m : DeviceManager) : IoType → List (Range × Dev)
  | .Pio => m.pio_bus
  | .Mmio => m.mmio_bus
  | .PhysicalMmio => []


/-! ## Derived notions used by the lemmas and claims -/

/-- The (base, size) pairs a resource list occupies in the port pool. -/
def pioPairs : List IoResource → List (Nat × Nat)
  | [] => []
  | res :: rest =>
      match res.res_type with
      | .Pio => (res.addr.getD 0, res.size) :: pioPairs rest
      | _ => pioPairs rest

/-- The (base, size) pairs a resource list occupies in the memory pool
(`Mmio` and `PhysicalMmio` both live there). -/
def mmioPairs : List IoResource → List (Nat × Nat)
  | [] => []
  | res :: rest =>
      match res.res_type with
      | .Pio => mmioPairs rest
      | _ => (res.addr.getD 0, res.size) :: mmioPairs rest

/-- Lookup by base in a range map (the `BTreeMap` lookup function). -/
def findBase : List (Range × Dev) → Nat → Option (Range × Dev)
  | [], _ => none
  | e :: t, b => if e.1.base = b then some e else findBase t b

/-- The `BTreeMap` representation invariant: entries strictly sorted by base. -/
def SortedBus (l : List (Range × Dev)) : Prop :=
  List.Pairwise (fun e1 e2 => e1.1.base < e2.1.base) l

instance (l : List (Range × Dev)) : Decidable (SortedBus l) :=
  inferInstanceAs (Decidable (List.Pairwise _ l))

/-- The ranges a resource list contributes to the pio map (`Pio` entries). -/
def pioRanges : List IoResource → List Range
  | [] => []
  | res :: rest =>
      match res.res_type with
      | .Pio => ⟨res.addr.getD 0, res.size⟩ :: pioRanges rest
      | _ => pioRanges rest

/-- The ranges a resource list contributes to the mmio map (`Mmio` entries
only; `PhysicalMmio` is never inserted). -/
def mmioRanges : List IoResource → List Range
  | [] => []
  | res :: rest =>
      match res.res_type with
      | .Mmio => ⟨res.addr.getD 0, res.size⟩ :: mmioRanges rest
      | _ => mmioRanges rest

/-- Repeated `btInsert` (values all `d`), keeping only the maps. -/
def insFold (l : List (Range × Dev)) (es : List Range) (d : Dev) : List (Range × Dev) :=
  es.foldl (fun l e => (btInsert l e d).1) l

/-- All the inserts of `insFold` succeed (no key was present). -/
def insOk (l : List (Range × Dev)) (es : List Range) (d : Dev) : Bool :=
  match es with
  | [] => true
  | e :: t =>
      match btInsert l e d with
      | (l1, none) => insOk l1 t d
      | (_, some _) => false

/-- Repeated `btRemove`, keeping only the maps. -/
def remFold (l : List (Range × Dev)) (es : List Range) : List (Range × Dev) :=
  es.foldl (fun l e => (btRemove l e).1) l

/-! ## Allocator bookkeeping lemmas -/

lemma freeResourcesAlloc_spec (rs : List IoResource) (a : SystemAllocator) :
    freeResourcesAlloc a rs =
      { a with ioAllocated := (pioPairs rs).foldl erasePair a.ioAllocated,
               mmioAllocated := (mmioPairs rs).foldl erasePair a.mmioAllocated } := by
  induction rs generalizing a with
  | nil => simp [freeResourcesAlloc, pioPairs, mmioPairs]
  | cons res rest ih =>
      obtain ⟨addr, size, ty⟩ := res
      cases ty <;>
        simp [freeResourcesAlloc, pioPairs, mmioPairs, List.foldl_cons,
          SystemAllocator.free_io_addresses, SystemAllocator.free_mmio_addresses] at ih ⊢ <;>
        rw [ih]

lemma erasePair_append_left (v : Nat × Nat) (l1 l2 : List (Nat × Nat)) (hv : v ∈ l1) :
    erasePair (l1 ++ l2) v = erasePair l1 v ++ l2 := by
  induction l1 with
  | nil => cases hv
  | cons x t ih =>
      by_cases hx : x = v
      · simp [erasePair, hx]
      · have hv' : v ∈ t := by
          rcases List.mem_cons.mp hv with rfl | hv'
          · exact absurd rfl hx
          · exact hv'
        simp [erasePair, hx, ih hv']

lemma perm_cons_erasePair (v : Nat × Nat) (l : List (Nat × Nat)) (hv : v ∈ l) :
    l.Perm (v :: erasePair l v) := by
  induction l with
  | nil => cases hv
  | cons x t ih =>
      by_cases hx : x = v
      · subst hx
        simp [erasePair]
      · have hv' : v ∈ t := by
          rcases List.mem_cons.mp hv with rfl | hv'
          · exact absurd rfl hx
          · exact hv'
        have h1 : (x :: t).Perm (x :: v :: erasePair t v) := (ih hv').cons x
        have h2 : (x :: v :: erasePair t v).Perm (v :: x :: erasePair t v) :=
          List.Perm.swap v x _
        simpa [erasePair, hx] using h1.trans h2

lemma eraseFold_perm_append (toFree block rest : List (Nat × Nat))
    (h : toFree.Perm block) : toFree.foldl erasePair (block ++ rest) = rest := by
  induction toFree generalizing block with
  | nil =>
      have hb : block = [] := h.symm.eq_nil
      simp [hb]
  | cons v tf ih =>
      have hv : v ∈ block := h.subset (List.mem_cons_self v tf)
      simp only [List.foldl_cons]
      rw [erasePair_append_left v block rest hv]
      apply ih
      exact (h.trans (perm_cons_erasePair v block hv)).cons_inv

lemma allocate_io_eq (a : SystemAllocator) (base size b : Nat) (a1 : SystemAllocator)
    (hpr : a.allocate_io_addresses base size = (some b, a1)) :
    b = base ∧ a1 = { a with ioAllocated := (b, size) :: a.ioAllocated } := by
  simp only [SystemAllocator.allocate_io_addresses] at hpr
  split at hpr
  · rw [Prod.mk.injEq] at hpr
    obtain ⟨hb, ha⟩ := hpr
    obtain rfl := Option.some.inj hb
    exact ⟨rfl, ha.symm⟩
  · rw [Prod.mk.injEq] at hpr
    exact absurd hpr.1 (by simp)

lemma allocate_mmio_eq (a : SystemAllocator) (addr : Option Nat) (size b : Nat)
    (a1 : SystemAllocator) (hpr : a.allocate_mmio_addresses addr size = (some b, a1)) :
    a1 = { a with mmioAllocated := (b, size) :: a.mmioAllocated } := by
  cases addr with
  | some base0 =>
      simp only [SystemAllocator.allocate_mmio_addresses] at hpr
      split at hpr
      · rw [Prod.mk.injEq] at hpr
        obtain ⟨hb, ha⟩ := hpr
        obtain rfl := Option.some.inj hb
        exact ha.symm
      · rw [Prod.mk.injEq] at hpr
        exact absurd hpr.1 (by simp)
  | none =>
      simp only [SystemAllocator.allocate_mmio_addresses] at hpr
      rw [Prod.mk.injEq] at hpr
      obtain ⟨hb, ha⟩ := hpr
      obtain rfl := Option.some.inj hb
      exact ha.symm

lemma allocLoop_okAll_spec (rs : List IoResource) (a a' : SystemAllocator)
    (upd : List IoResource) (h : allocLoop a rs = .okAll a' upd) :
    a'.ioAllocated = (pioPairs upd).reverse ++ a.ioAllocated ∧
    a'.mmioAllocated = (mmioPairs upd).reverse ++ a.mmioAllocated ∧
    a'.nextIrq = a.nextIrq ∧ a'.lastIrq = a.lastIrq ∧
    (∀ res ∈ upd, res.addr.isSome) := by
  induction rs generalizing a a' upd with
  | nil =>
      simp only [allocLoop, AllocPhase.okAll.injEq] at h
      obtain ⟨rfl, rfl⟩ := h
      simp [pioPairs, mmioPairs]
  | cons res rest ih =>
      obtain ⟨addr, size, ty⟩ := res
      cases ty with
      | Pio =>
          cases addr with
          | none => simp [allocLoop] at h
          | some base =>
              simp only [allocLoop] at h
              cases hpr : SystemAllocator.allocate_io_addresses a base size with
              | mk ob a1 =>
                  rw [hpr] at h
                  cases ob with
                  | none => simp at h
                  | some b =>
                      simp only at h
                      cases hrec : allocLoop a1 rest with
                      | okAll a2 upd2 =>
                          rw [hrec] at h
                          simp only [allocStep, AllocPhase.okAll.injEq] at h
                          obtain ⟨rfl, rfl⟩ := h
                          obtain ⟨h1, h2, h3, h4, h5⟩ := ih _ _ _ hrec
                          obtain ⟨rfl, ha1⟩ := allocate_io_eq a base size b a1 hpr
                          subst ha1
                          refine ⟨?_, by simpa [mmioPairs] using h2, by simpa using h3,
                            by simpa using h4, ?_⟩
                          · simp only [pioPairs, List.reverse_cons, List.append_assoc] at h1 ⊢
                            simpa using h1
                          · intro r hr
                            rcases List.mem_cons.mp hr with rfl | hr
                            · rfl
                            · exact h5 r hr
                      | pioNone a2 upd2 => rw [hrec] at h; simp [allocStep] at h
                      | broke a2 al tl => rw [hrec] at h; simp [allocStep] at h
      | Mmio =>
          simp only [allocLoop] at h
          cases hpr : SystemAllocator.allocate_mmio_addresses a addr size with
          | mk ob a1 =>
              rw [hpr] at h
              cases ob with
              | none => simp at h
              | some b =>
                  simp only at h
                  cases hrec : allocLoop a1 rest with
                  | okAll a2 upd2 =>
                      rw [hrec] at h
                      simp only [allocStep, AllocPhase.okAll.injEq] at h
                      obtain ⟨rfl, rfl⟩ := h
                      obtain ⟨h1, h2, h3, h4, h5⟩ := ih _ _ _ hrec
                      obtain ha1 := allocate_mmio_eq a addr size b a1 hpr
                      subst ha1
                      refine ⟨by simpa [pioPairs] using h1, ?_, by simpa using h3,
                        by simpa using h4, ?_⟩
                      · simp only [mmioPairs, List.reverse_cons, List.append_assoc] at h2 ⊢
                        simpa using h2
                      · intro r hr
                        rcases List.mem_cons.mp hr with rfl | hr
                        · rfl
                        · exact h5 r hr
                  | pioNone a2 upd2 => rw [hrec] at h; simp [allocStep] at h
                  | broke a2 al tl => rw [hrec] at h; simp [allocStep] at h
      | PhysicalMmio =>
          simp only [allocLoop] at h
          cases hpr : SystemAllocator.allocate_mmio_addresses a addr size with
          | mk ob a1 =>
              rw [hpr] at h
              cases ob with
              | none => simp at h
              | some b =>
                  simp only at h
                  cases hrec : allocLoop a1 rest with
                  | okAll a2 upd2 =>
                      rw [hrec] at h
                      simp only [allocStep, AllocPhase.okAll.injEq] at h
                      obtain ⟨rfl, rfl⟩ := h
                      obtain ⟨h1, h2, h3, h4, h5⟩ := ih _ _ _ hrec
                      obtain ha1 := allocate_mmio_eq a addr size b a1 hpr
                      subst ha1
                      refine ⟨by simpa [pioPairs] using h1, ?_, by simpa using h3,
                        by simpa using h4, ?_⟩
                      · simp only [mmioPairs, List.reverse_cons, List.append_assoc] at h2 ⊢
                        simpa using h2
                      · intro r hr
                        rcases List.mem_cons.mp hr with rfl | hr
                        · rfl
                        · exact h5 r hr
                  | pioNone a2 upd2 => rw [hrec] at h; simp [allocStep] at h
                  | broke a2 al tl => rw [hrec] at h; simp [allocStep] at h

lemma sysAllocExt (a b : SystemAllocator) (h1 : a.ioAllocated = b.ioAllocated)
    (h2 : a.mmioAllocated = b.mmioAllocated) (h3 : a.nextIrq = b.nextIrq)
    (h4 : a.lastIrq = b.lastIrq) : a = b := by
  cases a; cases b; simp_all

lemma allocate_io_none_eq (a : SystemAllocator) (base size : Nat) (a1 : SystemAllocator)
    (hpr : a.allocate_io_addresses base size = (none, a1)) : a1 = a := by
  simp only [SystemAllocator.allocate_io_addresses] at hpr
  split at hpr
  · rw [Prod.mk.injEq] at hpr
    exact absurd hpr.1 (by simp)
  · rw [Prod.mk.injEq] at hpr
    exact hpr.2.symm

lemma allocate_mmio_none_eq (a : SystemAllocator) (addr : Option Nat) (size : Nat)
    (a1 : SystemAllocator) (hpr : a.allocate_mmio_addresses addr size = (none, a1)) :
    a1 = a := by
  cases addr with
  | some base0 =>
      simp only [SystemAllocator.allocate_mmio_addresses] at hpr
      split at hpr
      · rw [Prod.mk.injEq] at hpr
        exact absurd hpr.1 (by simp)
      · rw [Prod.mk.injEq] at hpr
        exact hpr.2.symm
  | none =>
      simp only [SystemAllocator.allocate_mmio_addresses] at hpr
      rw [Prod.mk.injEq] at hpr
      exact absurd hpr.1 (by simp)

lemma allocLoop_broke_spec (rs : List IoResource) (a a' : SystemAllocator)
    (alloc tail : List IoResource) (h : allocLoop a rs = .broke a' alloc tail) :
    a'.ioAllocated = (pioPairs alloc).reverse ++ a.ioAllocated ∧
    a'.mmioAllocated = (mmioPairs alloc).reverse ++ a.mmioAllocated ∧
    a'.nextIrq = a.nextIrq ∧ a'.lastIrq = a.lastIrq := by
  induction rs generalizing a a' alloc tail with
  | nil => simp [allocLoop] at h
  | cons res rest ih =>
      obtain ⟨addr, size, ty⟩ := res
      cases ty with
      | Pio =>
          cases addr with
          | none => simp [allocLoop] at h
          | some base =>
              simp only [allocLoop] at h
              cases hpr : SystemAllocator.allocate_io_addresses a base size with
              | mk ob a1 =>
                  rw [hpr] at h
                  cases ob with
                  | none =>
                      simp only [AllocPhase.broke.injEq] at h
                      obtain ⟨rfl, rfl, rfl⟩ := h
                      obtain rfl := allocate_io_none_eq a base size a1 hpr
                      simp [pioPairs, mmioPairs]
                  | some b =>
                      simp only at h
                      cases hrec : allocLoop a1 rest with
                      | okAll a2 upd2 => rw [hrec] at h; simp [allocStep] at h
                      | pioNone a2 upd2 => rw [hrec] at h; simp [allocStep] at h
                      | broke a2 al tl =>
                          rw [hrec] at h
                          simp only [allocStep, AllocPhase.broke.injEq] at h
                          obtain ⟨rfl, rfl, rfl⟩ := h
                          obtain ⟨h1, h2, h3, h4⟩ := ih _ _ _ _ hrec
                          obtain ⟨rfl, ha1⟩ := allocate_io_eq a base size b a1 hpr
                          subst ha1
                          refine ⟨?_, by simpa [mmioPairs] using h2, by simpa using h3,
                            by simpa using h4⟩
                          simp only [pioPairs, List.reverse_cons, List.append_assoc] at h1 ⊢
                          simpa using h1
      | Mmio =>
          simp only [allocLoop] at h
          cases hpr : SystemAllocator.allocate_mmio_addresses a addr size with
          | mk ob a1 =>
              rw [hpr] at h
              cases ob with
              | none =>
                  simp only [AllocPhase.broke.injEq] at h
                  obtain ⟨rfl, rfl, rfl⟩ := h
                  obtain rfl := allocate_mmio_none_eq a addr size a1 hpr
                  simp [pioPairs, mmioPairs]
              | some b =>
                  simp only at h
                  cases hrec : allocLoop a1 rest with
                  | okAll a2 upd2 => rw [hrec] at h; simp [allocStep] at h
                  | pioNone a2 upd2 => rw [hrec] at h; simp [allocStep] at h
                  | broke a2 al tl =>
                      rw [hrec] at h
                      simp only [allocStep, AllocPhase.broke.injEq] at h
                      obtain ⟨rfl, rfl, rfl⟩ := h
                      obtain ⟨h1, h2, h3, h4⟩ := ih _ _ _ _ hrec
                      obtain ha1 := allocate_mmio_eq a addr size b a1 hpr
                      subst ha1
                      refine ⟨by simpa [pioPairs] using h1, ?_, by simpa using h3,
                        by simpa using h4⟩
                      simp only [mmioPairs, List.reverse_cons, List.append_assoc] at h2 ⊢
                      simpa using h2
      | PhysicalMmio =>
          simp only [allocLoop] at h
          cases hpr : SystemAllocator.allocate_mmio_addresses a addr size with
          | mk ob a1 =>
              rw [hpr] at h
              cases ob with
              | none =>
                  simp only [AllocPhase.broke.injEq] at h
                  obtain ⟨rfl, rfl, rfl⟩ := h
                  obtain rfl := allocate_mmio_none_eq a addr size a1 hpr
                  simp [pioPairs, mmioPairs]
              | some b =>
                  simp only at h
                  cases hrec : allocLoop a1 rest with
                  | okAll a2 upd2 => rw [hrec] at h; simp [allocStep] at h
                  | pioNone a2 upd2 => rw [hrec] at h; simp [allocStep] at h
                  | broke a2 al tl =>
                      rw [hrec] at h
                      simp only [allocStep, AllocPhase.broke.injEq] at h
                      obtain ⟨rfl, rfl, rfl⟩ := h
                      obtain ⟨h1, h2, h3, h4⟩ := ih _ _ _ _ hrec
                      obtain ha1 := allocate_mmio_eq a addr size b a1 hpr
                      subst ha1
                      refine ⟨by simpa [pioPairs] using h1, ?_, by simpa using h3,
                        by simpa using h4⟩
                      simp only [mmioPairs, List.reverse_cons, List.append_assoc] at h2 ⊢
                      simpa using h2

/-- Freeing exactly the pairs that were consed onto a pool restores the pool. -/
lemma freeRestore (ps : List (Nat × Nat)) (l0 : List (Nat × Nat)) :
    ps.foldl erasePair (ps.reverse ++ l0) = l0 :=
  eraseFold_perm_append ps ps.reverse l0 (List.reverse_perm ps).symm

/-- Rollback of `allocate_resources`: when the loop breaks on an allocation
failure, freeing the allocated prefix restores the manager (and in particular
the allocator) exactly. -/
lemma allocate_resources_overlap_eq (m : DeviceManager) (res : List IoResource)
    (m1 : DeviceManager) (upd : List IoResource)
    (h : m.allocate_resources res = (m1, upd, .error .Overlap)) : m1 = m := by
  unfold DeviceManager.allocate_resources at h
  cases hl : allocLoop m.resource res with
  | okAll a u => rw [hl] at h; simp at h
  | pioNone a u => rw [hl] at h; simp at h
  | broke a alloc tail =>
      rw [hl] at h
      rw [Prod.mk.injEq] at h
      obtain ⟨hm, _⟩ := h
      obtain ⟨h1, h2, h3, h4⟩ := allocLoop_broke_spec _ _ _ _ _ hl
      rw [← hm]
      have hres : freeResourcesAlloc a alloc = m.resource := by
        rw [freeResourcesAlloc_spec]
        apply sysAllocExt <;> simp only []
        · rw [h1, freeRestore]
        · rw [h2, freeRestore]
        · exact h3
        · exact h4
      simp [DeviceManager.free_resources, hres]

/-! ## Range-map lemmas -/

lemma findBase_nil (b : Nat) : findBase [] b = none := rfl

lemma findBase_cons (e : Range × Dev) (t : List (Range × Dev)) (b : Nat) :
    findBase (e :: t) b = if e.1.base = b then some e else findBase t b := rfl

lemma findBase_eq_none (l : List (Range × Dev)) (b : Nat)
    (h : ∀ e ∈ l, e.1.base ≠ b) : findBase l b = none := by
  induction l with
  | nil => rfl
  | cons e t ih =>
      rw [findBase_cons, if_neg (h e (List.mem_cons_self e t))]
      exact ih fun e' he' => h e' (List.mem_cons_of_mem e he')

lemma findBase_mem (l : List (Range × Dev)) (b : Nat) (e : Range × Dev)
    (h : findBase l b = some e) : e ∈ l ∧ e.1.base = b := by
  induction l with
  | nil => cases h
  | cons x t ih =>
      by_cases hx : x.1.base = b
      · rw [findBase_cons, if_pos hx] at h
        obtain rfl := Option.some.inj h
        exact ⟨List.mem_cons_self x t, hx⟩
      · rw [findBase_cons, if_neg hx] at h
        obtain ⟨hm, hb⟩ := ih h
        exact ⟨List.mem_cons_of_mem x hm, hb⟩

lemma sortedBus_cons (e : Range × Dev) (t : List (Range × Dev))
    (h : SortedBus (e :: t)) : SortedBus t ∧ ∀ e' ∈ t, e.1.base < e'.1.base := by
  rw [SortedBus, List.pairwise_cons] at h
  exact ⟨h.2, h.1⟩

lemma sortedBus_cons_intro (e : Range × Dev) (t : List (Range × Dev))
    (h1 : SortedBus t) (h2 : ∀ e' ∈ t, e.1.base < e'.1.base) : SortedBus (e :: t) := by
  rw [SortedBus, List.pairwise_cons]
  exact ⟨h2, h1⟩

lemma sortedBus_findBase_head (e : Range × Dev) (t : List (Range × Dev))
    (h : SortedBus (e :: t)) : findBase t e.1.base = none := by
  obtain ⟨_, hlt⟩ := sortedBus_cons e t h
  exact findBase_eq_none t e.1.base fun e' he' => Nat.ne_of_gt (hlt e' he')

lemma mem_iff_findBase (l : List (Range × Dev)) (r : Range) (d : Dev)
    (hs : SortedBus l) : (r, d) ∈ l ↔ findBase l r.base = some (r, d) := by
  constructor
  · intro hm
    induction l with
    | nil => cases hm
    | cons x t ih =>
        obtain ⟨ht, hlt⟩ := sortedBus_cons x t hs
        rcases List.mem_cons.mp hm with rfl | hm'
        · rw [findBase_cons, if_pos rfl]
        · have hne : x.1.base ≠ r.base := Nat.ne_of_lt (hlt (r, d) hm')
          rw [findBase_cons, if_neg hne]
          exact ih ht hm'
  · intro hf
    exact (findBase_mem l r.base (r, d) hf).1

lemma sortedBusExt : ∀ l1 l2 : List (Range × Dev), SortedBus l1 → SortedBus l2 →
    (∀ b, findBase l1 b = findBase l2 b) → l1 = l2 := by
  intro l1
  induction l1 with
  | nil =>
      intro l2 h1 h2 h
      cases l2 with
      | nil => rfl
      | cons e2 t2 =>
          have hq := h e2.1.base
          rw [findBase_nil, findBase_cons, if_pos rfl] at hq
          cases hq
  | cons e1 t1 ih =>
      intro l2 h1 h2 h
      cases l2 with
      | nil =>
          have hq := h e1.1.base
          rw [findBase_nil, findBase_cons, if_pos rfl] at hq
          cases hq
      | cons e2 t2 =>
          obtain ⟨ht1, hlt1⟩ := sortedBus_cons e1 t1 h1
          obtain ⟨ht2, hlt2⟩ := sortedBus_cons e2 t2 h2
          have he : e1 = e2 := by
            by_cases hb : e1.1.base = e2.1.base
            · have h12 := h e1.1.base
              rw [findBase_cons, findBase_cons, if_pos rfl, if_pos hb.symm] at h12
              exact Option.some.inj h12
            · have h12 := h e1.1.base
              rw [findBase_cons, findBase_cons, if_pos rfl,
                if_neg (fun hq : e2.1.base = e1.1.base => hb hq.symm)] at h12
              obtain ⟨hm1, _⟩ := findBase_mem t2 e1.1.base e1 h12.symm
              have h21 := h e2.1.base
              rw [findBase_cons, findBase_cons, if_neg hb, if_pos rfl] at h21
              obtain ⟨hm2, _⟩ := findBase_mem t1 e2.1.base e2 h21
              have ha := hlt1 e2 hm2
              have hb2 := hlt2 e1 hm1
              omega
          subst he
          have ht : t1 = t2 := by
            apply ih t2 ht1 ht2
            intro b
            by_cases hb : b = e1.1.base
            · subst hb
              rw [sortedBus_findBase_head e1 t1 h1, sortedBus_findBase_head e1 t2 h2]
            · have hbb := h b
              rw [findBase_cons, findBase_cons,
                if_neg (fun hq : e1.1.base = b => hb hq.symm),
                if_neg (fun hq : e1.1.base = b => hb hq.symm)] at hbb
              exact hbb
          rw [ht]

lemma btInsert_nil (r : Range) (d : Dev) : btInsert [] r d = ([(r, d)], none) := rfl

lemma btInsert_cons_lt (r r' : Range) (d d' : Dev) (t : List (Range × Dev))
    (h : r.base < r'.base) :
    btInsert ((r', d') :: t) r d = ((r, d) :: (r', d') :: t, none) := by
  rw [btInsert, if_pos h]

lemma btInsert_cons_eq (r r' : Range) (d d' : Dev) (t : List (Range × Dev))
    (h : r.base = r'.base) :
    btInsert ((r', d') :: t) r d = ((r', d) :: t, some d') := by
  rw [btInsert, if_neg (by omega : ¬ r.base < r'.base), if_pos h]

lemma btInsert_cons_gt (r r' : Range) (d d' : Dev) (t : List (Range × Dev))
    (h : r'.base < r.base) :
    btInsert ((r', d') :: t) r d =
      ((r', d') :: (btInsert t r d).1, (btInsert t r d).2) := by
  rw [btInsert, if_neg (by omega : ¬ r.base < r'.base),
    if_neg (by omega : ¬ r.base = r'.base)]

lemma btInsert_findBase_other (l : List (Range × Dev)) (r : Range) (d : Dev) (b : Nat)
    (hb : b ≠ r.base) : findBase (btInsert l r d).1 b = findBase l b := by
  have hrb : ¬ r.base = b := fun hq => hb hq.symm
  induction l with
  | nil => rw [btInsert_nil, findBase_cons, if_neg hrb]
  | cons e t ih =>
      rcases Nat.lt_trichotomy r.base e.1.base with hc | hc | hc
      · rw [btInsert_cons_lt _ _ _ _ _ hc, findBase_cons, if_neg hrb]
      · rw [btInsert_cons_eq _ _ _ _ _ hc]
        by_cases hx : e.1.base = b
        · omega
        · rw [findBase_cons, findBase_cons, if_neg hx, if_neg hx]
      · rw [btInsert_cons_gt _ _ _ _ _ hc]
        by_cases hx : e.1.base = b
        · rw [findBase_cons, findBase_cons, if_pos hx, if_pos hx]
        · rw [findBase_cons, findBase_cons, if_neg hx, if_neg hx, ih]

lemma btInsert_snd_eq (l : List (Range × Dev)) (r : Range) (d : Dev)
    (hs : SortedBus l) : (btInsert l r d).2 = (findBase l r.base).map Prod.snd := by
  induction l with
  | nil => rw [btInsert_nil, findBase_nil]; rfl
  | cons e t ih =>
      obtain ⟨ht, hlt⟩ := sortedBus_cons e t hs
      rcases Nat.lt_trichotomy r.base e.1.base with hc | hc | hc
      · have hne : e.1.base ≠ r.base := by omega
        have hnone : findBase t r.base = none :=
          findBase_eq_none t r.base fun e' he' => by have := hlt e' he'; omega
        rw [btInsert_cons_lt _ _ _ _ _ hc, findBase_cons, if_neg hne, hnone]
        rfl
      · rw [btInsert_cons_eq _ _ _ _ _ hc, findBase_cons, if_pos hc.symm]
        rfl
      · have hne : e.1.base ≠ r.base := by omega
        rw [btInsert_cons_gt _ _ _ _ _ hc, findBase_cons, if_neg hne]
        exact ih ht

lemma btInsert_findBase_self (l : List (Range × Dev)) (r : Range) (d : Dev)
    (hs : SortedBus l) (hf : findBase l r.base = none) :
    findBase (btInsert l r d).1 r.base = some (r, d) := by
  induction l with
  | nil => rw [btInsert_nil, findBase_cons, if_pos rfl]
  | cons e t ih =>
      obtain ⟨ht, hlt⟩ := sortedBus_cons e t hs
      rw [findBase_cons] at hf
      have hhd : ¬ e.1.base = r.base := by
        intro hq
        rw [if_pos hq] at hf
        cases hf
      rw [if_neg hhd] at hf
      rcases Nat.lt_trichotomy r.base e.1.base with hc | hc | hc
      · rw [btInsert_cons_lt _ _ _ _ _ hc, findBase_cons, if_pos rfl]
      · omega
      · rw [btInsert_cons_gt _ _ _ _ _ hc, findBase_cons, if_neg hhd]
        exact ih ht hf

lemma btInsert_base_bound (l : List (Range × Dev)) (r : Range) (d : Dev)
    (e' : Range × Dev) (h : e' ∈ (btInsert l r d).1) :
    e'.1.base = r.base ∨ ∃ e ∈ l, e'.1.base = e.1.base := by
  induction l with
  | nil =>
      rw [btInsert_nil] at h
      rcases List.mem_singleton.mp h with rfl
      exact Or.inl rfl
  | cons e t ih =>
      rcases Nat.lt_trichotomy r.base e.1.base with hc | hc | hc
      · rw [btInsert_cons_lt _ _ _ _ _ hc] at h
        rcases List.mem_cons.mp h with rfl | h'
        · exact Or.inl rfl
        · rcases List.mem_cons.mp h' with rfl | hm
          · exact Or.inr ⟨e, List.mem_cons_self e t, rfl⟩
          · exact Or.inr ⟨e', List.mem_cons_of_mem e hm, rfl⟩
      · rw [btInsert_cons_eq _ _ _ _ _ hc] at h
        rcases List.mem_cons.mp h with rfl | hm
        · exact Or.inr ⟨e, List.mem_cons_self e t, rfl⟩
        · exact Or.inr ⟨e', List.mem_cons_of_mem e hm, rfl⟩
      · rw [btInsert_cons_gt _ _ _ _ _ hc] at h
        rcases List.mem_cons.mp h with rfl | hm
        · exact Or.inr ⟨e, List.mem_cons_self e t, rfl⟩
        · rcases ih hm with h' | ⟨e0, he0, hb0⟩
          · exact Or.inl h'
          · exact Or.inr ⟨e0, List.mem_cons_of_mem e he0, hb0⟩

lemma btInsert_sorted (l : List (Range × Dev)) (r : Range) (d : Dev)
    (hs : SortedBus l) : SortedBus (btInsert l r d).1 := by
  induction l with
  | nil =>
      rw [btInsert_nil]
      exact sortedBus_cons_intro (r, d) [] (by rw [SortedBus]; exact List.Pairwise.nil)
        (fun e' he' => by cases he')
  | cons e t ih =>
      obtain ⟨ht, hlt⟩ := sortedBus_cons e t hs
      rcases Nat.lt_trichotomy r.base e.1.base with hc | hc | hc
      · rw [btInsert_cons_lt _ _ _ _ _ hc]
        apply sortedBus_cons_intro _ _ hs
        intro e' he'
        show r.base < e'.1.base
        rcases List.mem_cons.mp he' with rfl | he''
        · exact hc
        · have := hlt e' he''
          omega
      · rw [btInsert_cons_eq _ _ _ _ _ hc]
        exact sortedBus_cons_intro (e.1, d) t ht (fun e' he' => hlt e' he')
      · rw [btInsert_cons_gt _ _ _ _ _ hc]
        apply sortedBus_cons_intro _ _ (ih ht)
        intro e' he'
        show e.1.base < e'.1.base
        rcases btInsert_base_bound t r d e' he' with hb | ⟨e0, he0, hb0⟩
        · omega
        · have := hlt e0 he0
          omega


lemma btRemove_nil (r : Range) : btRemove [] r = ([], none) := rfl

lemma btRemove_cons_lt (r r' : Range) (d' : Dev) (t : List (Range × Dev))
    (h : r.base < r'.base) : btRemove ((r', d') :: t) r = ((r', d') :: t, none) := by
  rw [btRemove, if_pos h]

lemma btRemove_cons_eq (r r' : Range) (d' : Dev) (t : List (Range × Dev))
    (h : r.base = r'.base) : btRemove ((r', d') :: t) r = (t, some d') := by
  rw [btRemove, if_neg (by omega : ¬ r.base < r'.base), if_pos h]

lemma btRemove_cons_gt (r r' : Range) (d' : Dev) (t : List (Range × Dev))
    (h : r'.base < r.base) :
    btRemove ((r', d') :: t) r = ((r', d') :: (btRemove t r).1, (btRemove t r).2) := by
  rw [btRemove, if_neg (by omega : ¬ r.base < r'.base),
    if_neg (by omega : ¬ r.base = r'.base)]

lemma btRemove_sublist (l : List (Range × Dev)) (r : Range) :
    (btRemove l r).1.Sublist l := by
  induction l with
  | nil => rw [btRemove_nil]
  | cons e t ih =>
      rcases Nat.lt_trichotomy r.base e.1.base with hc | hc | hc
      · rw [btRemove_cons_lt _ _ _ _ hc]
      · rw [btRemove_cons_eq _ _ _ _ hc]
        exact List.sublist_cons_self e t
      · rw [btRemove_cons_gt _ _ _ _ hc]
        exact List.Sublist.cons₂ e ih

lemma btRemove_sorted (l : List (Range × Dev)) (r : Range) (hs : SortedBus l) :
    SortedBus (btRemove l r).1 :=
  List.Pairwise.sublist (btRemove_sublist l r) hs

lemma btRemove_findBase (l : List (Range × Dev)) (r : Range) (hs : SortedBus l)
    (b : Nat) :
    findBase (btRemove l r).1 b = if b = r.base then none else findBase l b := by
  induction l with
  | nil =>
      rw [btRemove_nil]
      split <;> rfl
  | cons e t ih =>
      obtain ⟨ht, hlt⟩ := sortedBus_cons e t hs
      rcases Nat.lt_trichotomy r.base e.1.base with hc | hc | hc
      · rw [btRemove_cons_lt _ _ _ _ hc]
        by_cases hb : b = r.base
        · subst hb
          rw [if_pos rfl]
          apply findBase_eq_none
          intro e' he'
          show e'.1.base ≠ r.base
          rcases List.mem_cons.mp he' with rfl | he''
          · show e.1.base ≠ r.base
            omega
          · have := hlt e' he''
            omega
        · rw [if_neg hb]
      · rw [btRemove_cons_eq _ _ _ _ hc]
        by_cases hb : b = r.base
        · subst hb
          rw [if_pos rfl]
          apply findBase_eq_none
          intro e' he'
          have := hlt e' he'
          omega
        · rw [if_neg hb, findBase_cons, if_neg (by omega : ¬ e.1.base = b)]
      · rw [btRemove_cons_gt _ _ _ _ hc]
        rw [findBase_cons, findBase_cons]
        by_cases hx : e.1.base = b
        · rw [if_pos hx, if_pos hx, if_neg (by omega : ¬ b = r.base)]
        · rw [if_neg hx, if_neg hx, ih ht]

lemma insFold_nil (l : List (Range × Dev)) (d : Dev) : insFold l [] d = l := rfl

lemma insFold_cons (l : List (Range × Dev)) (e : Range) (es : List Range) (d : Dev) :
    insFold l (e :: es) d = insFold (btInsert l e d).1 es d := rfl

lemma remFold_nil (l : List (Range × Dev)) : remFold l [] = l := rfl

lemma remFold_cons (l : List (Range × Dev)) (e : Range) (es : List Range) :
    remFold l (e :: es) = remFold (btRemove l e).1 es := rfl

lemma insOk_cons (l : List (Range × Dev)) (e : Range) (es : List Range) (d : Dev) :
    insOk l (e :: es) d = true ↔
      (btInsert l e d).2 = none ∧ insOk (btInsert l e d).1 es d = true := by
  cases hb : btInsert l e d with
  | mk l1 old =>
      cases old with
      | none => simp [insOk, hb]
      | some d0 => simp [insOk, hb]

lemma insFold_sorted (es : List Range) (l : List (Range × Dev)) (d : Dev)
    (hs : SortedBus l) : SortedBus (insFold l es d) := by
  induction es generalizing l with
  | nil => exact hs
  | cons e t ih =>
      rw [insFold_cons]
      exact ih _ (btInsert_sorted l e d hs)

lemma remFold_sorted (es : List Range) (l : List (Range × Dev))
    (hs : SortedBus l) : SortedBus (remFold l es) := by
  induction es generalizing l with
  | nil => exact hs
  | cons e t ih =>
      rw [remFold_cons]
      exact ih _ (btRemove_sorted l e hs)

lemma insFold_findBase_other (es : List Range) (l : List (Range × Dev)) (d : Dev)
    (b : Nat) (hb : ∀ e ∈ es, e.base ≠ b) :
    findBase (insFold l es d) b = findBase l b := by
  induction es generalizing l with
  | nil => rfl
  | cons e t ih =>
      rw [insFold_cons, ih _ (fun e' he' => hb e' (List.mem_cons_of_mem e he'))]
      exact btInsert_findBase_other l e d b
        (fun hq => hb e (List.mem_cons_self e t) hq.symm)

lemma insOk_fresh (es : List Range) (l : List (Range × Dev)) (d : Dev)
    (hs : SortedBus l) (hok : insOk l es d = true) :
    ∀ e ∈ es, findBase l e.base = none := by
  induction es generalizing l with
  | nil => intro e he; cases he
  | cons e0 t ih =>
      obtain ⟨hold, hok'⟩ := (insOk_cons l e0 t d).mp hok
      intro e he
      have hfresh0 : findBase l e0.base = none := by
        cases hfb : findBase l e0.base with
        | none => rfl
        | some x =>
            rw [btInsert_snd_eq l e0 d hs, hfb] at hold
            cases hold
      rcases List.mem_cons.mp he with rfl | he'
      · exact hfresh0
      · have hrec := ih _ (btInsert_sorted l e0 d hs) hok' e he'
        by_cases hq : e.base = e0.base
        · rw [hq, btInsert_findBase_self l e0 d hs hfresh0] at hrec
          cases hrec
        · rw [btInsert_findBase_other l e0 d e.base hq] at hrec
          exact hrec

lemma insFold_mem_preserved (es : List Range) (l : List (Range × Dev)) (d : Dev)
    (hs : SortedBus l) (hok : insOk l es d = true) (r0 : Range) (d0 : Dev)
    (hm : (r0, d0) ∈ l) : (r0, d0) ∈ insFold l es d := by
  have hf : findBase l r0.base = some (r0, d0) := (mem_iff_findBase l r0 d0 hs).mp hm
  have hne : ∀ e ∈ es, e.base ≠ r0.base := by
    intro e he hq
    have hfe := insOk_fresh es l d hs hok e he
    rw [hq, hf] at hfe
    cases hfe
  apply (mem_iff_findBase _ r0 d0 (insFold_sorted es l d hs)).mpr
  rw [insFold_findBase_other es l d r0.base hne, hf]

lemma remFold_findBase (es : List Range) (l : List (Range × Dev))
    (hs : SortedBus l) (b : Nat) :
    findBase (remFold l es) b =
      if b ∈ es.map Range.base then none else findBase l b := by
  induction es generalizing l with
  | nil => simp [remFold_nil]
  | cons e t ih =>
      rw [remFold_cons, ih _ (btRemove_sorted l e hs), btRemove_findBase l e hs b]
      by_cases hb1 : b = e.base
      · by_cases hb2 : b ∈ t.map Range.base <;>
          simp [List.map_cons, List.mem_cons, hb1, hb2]
      · by_cases hb2 : b ∈ t.map Range.base <;>
          simp [List.map_cons, List.mem_cons, hb1, hb2]

lemma insFold_remFold_cancel (es : List Range) (l : List (Range × Dev)) (d : Dev)
    (hs : SortedBus l) (hok : insOk l es d = true) :
    remFold (insFold l es d) es = l := by
  apply sortedBusExt _ _ (remFold_sorted es _ (insFold_sorted es l d hs)) hs
  intro b
  rw [remFold_findBase es _ (insFold_sorted es l d hs) b]
  by_cases hb : b ∈ es.map Range.base
  · rw [if_pos hb]
    obtain ⟨e, he, hbe⟩ := List.mem_map.mp hb
    subst hbe
    exact (insOk_fresh es l d hs hok e he).symm
  · rw [if_neg hb]
    apply insFold_findBase_other
    intro e he hq
    exact hb (List.mem_map.mpr ⟨e, he, hq⟩)

/-! ## Manager-level characterizations -/

lemma dmExt (m1 m2 : DeviceManager) (h1 : m1.resource = m2.resource)
    (h2 : m1.devices = m2.devices) (h3 : m1.mmio_bus = m2.mmio_bus)
    (h4 : m1.pio_bus = m2.pio_bus) : m1 = m2 := by
  cases m1; cases m2; simp_all

lemma allocate_resources_ok_elim (m : DeviceManager) (res : List IoResource)
    (m1 : DeviceManager) (upd : List IoResource)
    (h : m.allocate_resources res = (m1, upd, .ok ())) :
    allocLoop m.resource res = .okAll m1.resource upd ∧
      m1 = { m with resource := m1.resource } := by
  unfold DeviceManager.allocate_resources at h
  cases hl : allocLoop m.resource res with
  | okAll a u =>
      rw [hl] at h
      rw [Prod.mk.injEq, Prod.mk.injEq] at h
      obtain ⟨hm, hu, _⟩ := h
      subst hm
      subst hu
      exact ⟨rfl, rfl⟩
  | pioNone a u => rw [hl] at h; simp at h
  | broke a al tl => rw [hl] at h; simp at h

lemma register_resource_ok_spec (rs : List IoResource) (m m' : DeviceManager)
    (dev : Dev) (h : m.register_resource dev rs = (m', .ok ())) :
    m'.resource = m.resource ∧ m'.devices = m.devices ∧
    m'.pio_bus = insFold m.pio_bus (pioRanges rs) dev ∧
    m'.mmio_bus = insFold m.mmio_bus (mmioRanges rs) dev ∧
    insOk m.pio_bus (pioRanges rs) dev = true ∧
    insOk m.mmio_bus (mmioRanges rs) dev = true := by
  induction rs generalizing m with
  | nil =>
      simp only [DeviceManager.register_resource, Prod.mk.injEq] at h
      obtain ⟨rfl, _⟩ := h
      simp [pioRanges, mmioRanges, insFold_nil, insOk]
  | cons res rest ih =>
      obtain ⟨addr, size, ty⟩ := res
      cases ty with
      | Pio =>
          simp only [DeviceManager.register_resource] at h
          cases hp : btInsert m.pio_bus ⟨addr.getD 0, size⟩ dev with
          | mk l1 old =>
              rw [hp] at h
              cases old with
              | some d0 => simp at h
              | none =>
                  simp only at h
                  obtain ⟨g1, g2, g3, g4, g5, g6⟩ := ih _ h
                  refine ⟨by simpa using g1, by simpa using g2, ?_, ?_, ?_, ?_⟩
                  · rw [g3]
                    simp only [pioRanges, insFold_cons, hp]
                  · rw [g4]
                    simp only [mmioRanges]
                  · simp only [pioRanges]
                    exact (insOk_cons m.pio_bus _ _ dev).mpr
                      ⟨by rw [hp], by rw [hp]; simpa using g5⟩
                  · simpa [mmioRanges] using g6
      | Mmio =>
          simp only [DeviceManager.register_resource] at h
          cases hp : btInsert m.mmio_bus ⟨addr.getD 0, size⟩ dev with
          | mk l1 old =>
              rw [hp] at h
              cases old with
              | some d0 => simp at h
              | none =>
                  simp only at h
                  obtain ⟨g1, g2, g3, g4, g5, g6⟩ := ih _ h
                  refine ⟨by simpa using g1, by simpa using g2, ?_, ?_, ?_, ?_⟩
                  · rw [g3]
                    simp only [pioRanges]
                  · rw [g4]
                    simp only [mmioRanges, insFold_cons, hp]
                  · simpa [pioRanges] using g5
                  · simp only [mmioRanges]
                    exact (insOk_cons m.mmio_bus _ _ dev).mpr
                      ⟨by rw [hp], by rw [hp]; simpa using g6⟩
      | PhysicalMmio =>
          simp only [DeviceManager.register_resource] at h
          obtain ⟨g1, g2, g3, g4, g5, g6⟩ := ih _ h
          exact ⟨g1, g2, by simpa [pioRanges] using g3, by simpa [mmioRanges] using g4,
            by simpa [pioRanges] using g5, by simpa [mmioRanges] using g6⟩

lemma removeEntries_spec (rs : List IoResource) (m : DeviceManager)
    (h : ∀ res ∈ rs, res.addr.isSome = true) :
    removeEntries m rs =
      { m with pio_bus := remFold m.pio_bus (pioRanges rs),
               mmio_bus := remFold m.mmio_bus (mmioRanges rs) } := by
  induction rs generalizing m with
  | nil => simp [removeEntries, pioRanges, mmioRanges, remFold_nil]
  | cons res rest ih =>
      obtain ⟨addr, size, ty⟩ := res
      have hsome : addr.isSome = true := h _ (List.mem_cons_self _ _)
      have hrest : ∀ res ∈ rest, res.addr.isSome = true :=
        fun r hr => h r (List.mem_cons_of_mem _ hr)
      cases ty with
      | Pio =>
          simp only [removeEntries, hsome, if_pos]
          rw [ih _ hrest]
          simp [pioRanges, mmioRanges, remFold_cons]
      | Mmio =>
          simp only [removeEntries, hsome, if_pos]
          rw [ih _ hrest]
          simp [pioRanges, mmioRanges, remFold_cons]
      | PhysicalMmio =>
          simp only [removeEntries, hsome, if_pos]
          rw [ih _ hrest]
          simp [pioRanges, mmioRanges]

/-! ## Dispatch lemmas -/

lemma firstBeforeAux_eq_none (l : List (Range × Dev)) (addr : Nat)
    (h : ∀ e ∈ l, ¬ e.1.base ≤ addr) : firstBeforeAux addr l = none := by
  induction l with
  | nil => rfl
  | cons e t ih =>
      have he := h e (List.mem_cons_self e t)
      obtain ⟨r, d⟩ := e
      simp only [firstBeforeAux, if_neg he]
      exact ih fun e' he' => h e' (List.mem_cons_of_mem _ he')

lemma firstBeforeAux_reverse_max (l : List (Range × Dev)) (addr : Nat) (r : Range)
    (d : Dev) (hs : SortedBus l) (hmem : (r, d) ∈ l) (hle : r.base ≤ addr)
    (hmax : ∀ e ∈ l, e.1.base ≤ addr → e.1.base ≤ r.base) :
    firstBeforeAux addr l.reverse = some (r, d) := by
  induction l using List.reverseRecOn with
  | nil => cases hmem
  | append_singleton init x ih =>
      rw [List.reverse_append, List.reverse_singleton, List.singleton_append]
      have hsp := hs
      rw [SortedBus, List.pairwise_append] at hsp
      obtain ⟨hsi, _, hcross⟩ := hsp
      obtain ⟨rx, dx⟩ := x
      by_cases hx : rx.base ≤ addr
      · simp only [firstBeforeAux, if_pos hx]
        rcases List.mem_append.mp hmem with hin | hone
        · have h1 : r.base < rx.base := hcross (r, d) hin (rx, dx) (List.mem_singleton.mpr rfl)
          have h2 : rx.base ≤ r.base :=
            hmax (rx, dx) (List.mem_append.mpr (Or.inr (List.mem_singleton.mpr rfl))) hx
          omega
        · have hq := List.mem_singleton.mp hone
          rw [Prod.mk.injEq] at hq
          obtain ⟨rfl, rfl⟩ := hq
          rfl
      · simp only [firstBeforeAux, if_neg hx]
        have hin : (r, d) ∈ init := by
          rcases List.mem_append.mp hmem with hin | hone
          · exact hin
          · have hq := List.mem_singleton.mp hone
            rw [Prod.mk.injEq] at hq
            obtain ⟨rfl, rfl⟩ := hq
            exact absurd hle hx
        exact ih hsi hin fun e he hea => hmax e (List.mem_append.mpr (Or.inl he)) hea

/-! ## Claim theorems -/

/-- Claim C2 (the code fails it): writing the two bytes [0xAA, 0xBB] at
byte offset 1 of the address register (previous value 0) must, per the claim,
replace exactly byte lanes 1-2, giving 0x00BBAA00; the code's 2-byte arm
shifts mask and value by `offset * 16` instead of `offset * 8` and produces
0xBBAA0000, i.e. it writes byte lanes 2-3. -/
theorem c2_code_eval :
    (set_config_address ⟨[], 0⟩ 1 [0xAA, 0xBB]).config_address_reg = 0xBBAA0000 ∧
    (set_config_address ⟨[], 0⟩ 1 [0xAA, 0xBB]).config_address_reg ≠ 0x00BBAA00 := by
  constructor
  · rfl
  · decide

/-- Claim C7: with bit 31 (the enable bit) of the address register clear, a
write to the data-register ports 0xCFC-0xCFF is a complete no-op: the bus
state (address register and every child device's configuration registers) is
unchanged, and any following read returns exactly what it returned before the
write attempt. -/
theorem c7_enable_gate (b : PciBus) (addr : Nat) (data : List Nat)
    (hbit : b.config_address_reg &&& 0x80000000 = 0)
    (h1 : 0xcfc ≤ addr) (h2 : addr ≤ 0xcff) :
    config_address_write b addr data = b ∧
    (∀ addr2 data2,
      config_address_read (config_address_write b addr data) addr2 data2 =
        config_address_read b addr2 data2) := by
  have hA : ¬ (0xcf8 ≤ addr ∧ addr ≤ 0xcfb) := by omega
  have hB : 0xcfc ≤ addr ∧ addr ≤ 0xcff := ⟨h1, h2⟩
  have hw : config_address_write b addr data = b := by
    unfold config_address_write
    rw [if_neg hA, if_pos hB, if_pos hbit]
  exact ⟨hw, fun addr2 data2 => by rw [hw]⟩

/-- Witness for C7 at a concrete input. -/
theorem c7_witness :
    ((0x00000800 : Nat) &&& 0x80000000 = 0 ∧ (0xcfc : Nat) ≤ 0xcfc ∧ (0xcfc : Nat) ≤ 0xcff) ∧
    (config_address_write ⟨[⟨[7]⟩], 0x00000800⟩ 0xcfc [0x42] = ⟨[⟨[7]⟩], 0x00000800⟩ ∧
      (∀ addr2 data2,
        config_address_read (config_address_write ⟨[⟨[7]⟩], 0x00000800⟩ 0xcfc [0x42]) addr2 data2 =
          config_address_read ⟨[⟨[7]⟩], 0x00000800⟩ addr2 data2)) :=
  ⟨⟨by decide, by decide, by decide⟩,
    c7_enable_gate ⟨[⟨[7]⟩], 0x00000800⟩ 0xcfc [0x42] (by decide) (by decide) (by decide)⟩

/-- Claim C8: a read of the configuration window (ports 0xCF8-0xCFF) whose
byte range would extend past the current 4-byte word boundary sets every
byte of the buffer to 0xFF, regardless of the address-register value or
child-device contents. -/
theorem c8_boundary_read (b : PciBus) (addr : Nat) (data : List Nat)
    (h1 : 0xcf8 ≤ addr) (h2 : addr ≤ 0xcff)
    (hov : 4 < (addr - 0xcf8) % 4 + data.length) :
    config_address_read b addr data = data.map (fun _ => 0xff) := by
  unfold config_address_read
  rw [if_neg (by omega : ¬ ((addr - 0xcf8) % 4 + data.length ≤ 4))]

/-- Witness for C8 at a concrete input. -/
theorem c8_witness :
    ((0xcf8 : Nat) ≤ 0xcfd ∧ (0xcfd : Nat) ≤ 0xcff ∧
      4 < (0xcfd - 0xcf8) % 4 + ([0, 0, 0, 0] : List Nat).length) ∧
    config_address_read ⟨[⟨[5]⟩], 0x80000800⟩ 0xcfd [0, 0, 0, 0] =
      [0, 0, 0, 0].map (fun _ => 0xff) :=
  ⟨⟨by decide, by decide, by decide⟩,
    c8_boundary_read ⟨[⟨[5]⟩], 0x80000800⟩ 0xcfd [0, 0, 0, 0]
      (by decide) (by decide) (by decide)⟩

/-- Claim C10: `DeviceManager::read` and `write` take the manager by shared
reference and never touch its own state: the name registry, both range maps,
and the allocator's allocated/free state are all unchanged, whether the call
returns `Ok` or `NonExist`. -/
theorem c10_read_write_frame (m : DeviceManager) (addr : Nat) (io : IoType) :
    (m.read addr io).1 = m ∧ (m.write addr io).1 = m ∧
    (m.read addr io).1.devices = m.devices ∧
    (m.read addr io).1.pio_bus = m.pio_bus ∧
    (m.read addr io).1.mmio_bus = m.mmio_bus ∧
    (m.read addr io).1.resource = m.resource ∧
    (m.write addr io).1.devices = m.devices ∧
    (m.write addr io).1.pio_bus = m.pio_bus ∧
    (m.write addr io).1.mmio_bus = m.mmio_bus ∧
    (m.write addr io).1.resource = m.resource := by
  cases h : m.get_device addr io <;>
    simp [DeviceManager.read, DeviceManager.write, h]

/-- Claim C4: `read`/`write` select, among the registered ranges of the
requested kind, the entry with the greatest base at or below the address;
with no such entry the call returns `NonExist` and no device is invoked;
with such an entry, the call succeeds (invoking exactly the owning device
with the unmodified absolute address) iff `address - base < size`, and
returns `NonExist` otherwise. -/
theorem c4_dispatch (m : DeviceManager) (addr : Nat) (io : IoType)
    (hsp : SortedBus m.pio_bus) (hsm : SortedBus m.mmio_bus) :
    ((∀ e ∈ busOf m io, ¬ e.1.base ≤ addr) →
        m.read addr io = (m, .error .NonExist) ∧
        m.write addr io = (m, .error .NonExist)) ∧
    (∀ r d, (r, d) ∈ busOf m io → r.base ≤ addr →
      (∀ e ∈ busOf m io, e.1.base ≤ addr → e.1.base ≤ r.base) →
      ((addr - r.base < r.size →
          m.read addr io = (m, .ok (d, addr)) ∧
          m.write addr io = (m, .ok (d, addr))) ∧
       (r.size ≤ addr - r.base →
          m.read addr io = (m, .error .NonExist) ∧
          m.write addr io = (m, .error .NonExist)))) := by
  cases io with
  | PhysicalMmio =>
      constructor
      · intro _
        constructor <;> rfl
      · intro r d hmem
        cases hmem
  | Pio =>
      constructor
      · intro h
        have hfb : firstBeforeAux addr m.pio_bus.reverse = none :=
          firstBeforeAux_eq_none _ addr fun e he => h e (List.mem_reverse.mp he)
        constructor <;>
          simp [DeviceManager.read, DeviceManager.write, DeviceManager.get_device,
            DeviceManager.first_before, hfb]
      · intro r d hmem hle hmax
        have hfb := firstBeforeAux_reverse_max m.pio_bus addr r d hsp hmem hle hmax
        constructor
        · intro hin
          constructor <;>
            simp [DeviceManager.read, DeviceManager.write, DeviceManager.get_device,
              DeviceManager.first_before, hfb, hin]
        · intro hout
          have hnlt : ¬ addr - r.base < r.size := by omega
          constructor <;>
            · simp only [DeviceManager.read, DeviceManager.write, DeviceManager.get_device,
                DeviceManager.first_before, hfb]
              rw [if_neg hnlt]
  | Mmio =>
      constructor
      · intro h
        have hfb : firstBeforeAux addr m.mmio_bus.reverse = none :=
          firstBeforeAux_eq_none _ addr fun e he => h e (List.mem_reverse.mp he)
        constructor <;>
          simp [DeviceManager.read, DeviceManager.write, DeviceManager.get_device,
            DeviceManager.first_before, hfb]
      · intro r d hmem hle hmax
        have hfb := firstBeforeAux_reverse_max m.mmio_bus addr r d hsm hmem hle hmax
        constructor
        · intro hin
          constructor <;>
            simp [DeviceManager.read, DeviceManager.write, DeviceManager.get_device,
              DeviceManager.first_before, hfb, hin]
        · intro hout
          have hnlt : ¬ addr - r.base < r.size := by omega
          constructor <;>
            · simp only [DeviceManager.read, DeviceManager.write, DeviceManager.get_device,
                DeviceManager.first_before, hfb]
              rw [if_neg hnlt]

/-- Witness for C4: the spec's bounds example, a MemoryIO range at base
0x1000 of size 0x100; reading 0x1050 dispatches to the owner, reading
0x1100 fails with `NonExist`. -/
theorem c4_witness :
    (SortedBus (⟨⟨[], [], 0, 0⟩, [], [(⟨0x1000, 0x100⟩, ⟨1, "a"⟩)], []⟩ :
        DeviceManager).pio_bus ∧
     SortedBus (⟨⟨[], [], 0, 0⟩, [], [(⟨0x1000, 0x100⟩, ⟨1, "a"⟩)], []⟩ :
        DeviceManager).mmio_bus) ∧
    ((⟨⟨[], [], 0, 0⟩, [], [(⟨0x1000, 0x100⟩, ⟨1, "a"⟩)], []⟩ :
        DeviceManager).read 0x1050 .Mmio =
      (⟨⟨[], [], 0, 0⟩, [], [(⟨0x1000, 0x100⟩, ⟨1, "a"⟩)], []⟩, .ok (⟨1, "a"⟩, 0x1050)) ∧
     (⟨⟨[], [], 0, 0⟩, [], [(⟨0x1000, 0x100⟩, ⟨1, "a"⟩)], []⟩ :
        DeviceManager).read 0x1100 .Mmio =
      (⟨⟨[], [], 0, 0⟩, [], [(⟨0x1000, 0x100⟩, ⟨1, "a"⟩)], []⟩, .error .NonExist)) := by
  refine ⟨⟨by decide, by decide⟩, ?_, ?_⟩
  · exact (((c4_dispatch _ 0x1050 .Mmio (by decide) (by decide)).2
      ⟨0x1000, 0x100⟩ ⟨1, "a"⟩ (by decide) (by decide) (by decide)).1 (by decide)).1
  · exact (((c4_dispatch _ 0x1100 .Mmio (by decide) (by decide)).2
      ⟨0x1000, 0x100⟩ ⟨1, "a"⟩ (by decide) (by decide) (by decide)).2 (by decide)).1

lemma parse_device_eq (ca : Nat) :
    (parse_config_address ca).2.1 = (ca >>> 11) &&& 0x1f := rfl

lemma parse_register_eq (ca : Nat) :
    (parse_config_address ca).2.2.2 = (ca >>> 2) &&& 0x3f := rfl

lemma devSlotIndex_zero : devSlotIndex 0 = 2 ^ 64 - 1 := by
  unfold devSlotIndex
  omega

lemma devSlotIndex_pos (n : Nat) (hn1 : 1 ≤ n) (hn2 : n < 2 ^ 64) :
    devSlotIndex n = n - 1 := by
  unfold devSlotIndex
  omega

lemma range_map_eq_replicate (n : Nat) (f : Nat → Nat) (c : Nat)
    (h : ∀ i < n, f i = c) : (List.range n).map f = List.replicate n c := by
  induction n with
  | zero => rfl
  | succ k ih =>
      rw [List.range_succ, List.map_append, ih (fun i hi => h i (by omega)),
        List.replicate_succ']
      simp [h k (by omega)]

/-- Claim C3: a data-register read (ports 0xCFC-0xCFF, within the 4-byte
boundary) resolves the 32-bit word as follows: if the decoded device-slot
field is 0 (children sit at `slot - 1`, external slots are 1-based) or the
addressed slot holds no child device, the word is 0xFFFFFFFF (so a 4-byte
read returns four 0xFF bytes); otherwise it is the child device at index
`slot - 1`'s value for the decoded register index, sliced to the requested
byte lanes. -/
theorem c3_data_register_read (b : PciBus) (addr : Nat) (data : List Nat)
    (h1 : 0xcfc ≤ addr) (h2 : addr ≤ 0xcff)
    (h3 : (addr - 0xcf8) % 4 + data.length ≤ 4)
    (h4 : b.devices.length < 2 ^ 64) :
    (((parse_config_address (b.config_address_reg &&& 0x7fffffff)).2.1 = 0 ∨
        b.devices.length ≤
          (parse_config_address (b.config_address_reg &&& 0x7fffffff)).2.1 - 1) →
      config_address_read b addr data = List.replicate data.length 0xff) ∧
    (∀ d, 1 ≤ (parse_config_address (b.config_address_reg &&& 0x7fffffff)).2.1 →
      b.devices.get?
          ((parse_config_address (b.config_address_reg &&& 0x7fffffff)).2.1 - 1) =
        some d →
      config_address_read b addr data =
        (List.range data.length).map (fun i =>
          (config_register_read d
              (parse_config_address (b.config_address_reg &&& 0x7fffffff)).2.2.2 >>>
            (((addr - 0xcf8) % 4 + i) * 8)) &&& 0xff)) := by
  have hA : ¬ (0xcf8 ≤ addr ∧ addr ≤ 0xcfb) := by omega
  have hB : 0xcfc ≤ addr ∧ addr ≤ 0xcff := ⟨h1, h2⟩
  have hdev31 : (parse_config_address (b.config_address_reg &&& 0x7fffffff)).2.1 ≤ 0x1f := by
    rw [parse_device_eq]
    exact Nat.and_le_right
  constructor
  · intro hcase
    have hget : b.devices.get?
        (devSlotIndex (parse_config_address (b.config_address_reg &&& 0x7fffffff)).2.1) =
        none := by
      rcases hcase with h0 | hoor
      · rw [h0, devSlotIndex_zero]
        exact List.get?_eq_none.mpr (by omega)
      · rcases Nat.eq_zero_or_pos (parse_config_address (b.config_address_reg &&& 0x7fffffff)).2.1
          with h0 | hpos
        · rw [h0, devSlotIndex_zero]
          exact List.get?_eq_none.mpr (by omega)
        · rw [devSlotIndex_pos _ hpos (by omega)]
          exact List.get?_eq_none.mpr hoor
    simp only [config_address_read, if_neg hA, if_pos hB]
    rw [hget, if_pos h3]
    apply range_map_eq_replicate
    intro i hi
    have hk : (addr - 0xcf8) % 4 + i ≤ 3 := by omega
    have key : ∀ k ≤ 3, ((0xffffffff : Nat) >>> (k * 8)) &&& 0xff = 0xff := by decide
    exact key _ hk
  · intro d hpos hget
    have hidx : devSlotIndex
        (parse_config_address (b.config_address_reg &&& 0x7fffffff)).2.1 =
        (parse_config_address (b.config_address_reg &&& 0x7fffffff)).2.1 - 1 :=
      devSlotIndex_pos _ hpos (by omega)
    simp only [config_address_read, if_neg hA, if_pos hB]
    rw [hidx, hget, if_pos h3]

/-- Witness for C3: scenario C (slot 1 selected, no child: four 0xFF bytes)
and scenario B (slot 1 holds a child whose register 0 is 0x10000000). -/
theorem c3_witness :
    ((0xcfc : Nat) ≤ 0xcfc ∧ (0xcfc : Nat) ≤ 0xcff ∧
      (0xcfc - 0xcf8) % 4 + ([0, 0, 0, 0] : List Nat).length ≤ 4) ∧
    config_address_read ⟨[], 0x80000800⟩ 0xcfc [0, 0, 0, 0] =
      List.replicate 4 0xff ∧
    config_address_read ⟨[⟨[0x10000000]⟩], 0x80000800⟩ 0xcfc [0, 0, 0, 0] =
      (List.range 4).map (fun i =>
        (config_register_read ⟨[0x10000000]⟩
            (parse_config_address ((0x80000800 : Nat) &&& 0x7fffffff)).2.2.2 >>>
          (((0xcfc - 0xcf8) % 4 + i) * 8)) &&& 0xff) := by
  refine ⟨⟨by decide, by decide, by decide⟩, ?_, ?_⟩
  · exact (c3_data_register_read ⟨[], 0x80000800⟩ 0xcfc [0, 0, 0, 0]
      (by decide) (by decide) (by decide) (by norm_num)).1 (by decide)
  · exact (c3_data_register_read ⟨[⟨[0x10000000]⟩], 0x80000800⟩ 0xcfc [0, 0, 0, 0]
      (by decide) (by decide) (by decide) (by norm_num)).2 ⟨[0x10000000]⟩
      (by decide) (by decide)

/-- Counterexample to claim C1: a request list whose first (memory) resource
allocates successfully and whose second is a `Pio` resource without a base
makes `register_device` fail with `NonePIOAddress` — not a range-map
collision — yet the earlier allocation is NOT freed: the allocator state
after the call differs from the state before it. -/
theorem c1_counterexample :
    ((⟨⟨[], [], 0, 0⟩, [], [], []⟩ : DeviceManager).register_device ⟨0, "d"⟩ none
        [⟨some 0x1000, 0x100, .Mmio⟩, ⟨none, 8, .Pio⟩] none).result =
      .error .NonePIOAddress ∧
    ((⟨⟨[], [], 0, 0⟩, [], [], []⟩ : DeviceManager).register_device ⟨0, "d"⟩ none
        [⟨some 0x1000, 0x100, .Mmio⟩, ⟨none, 8, .Pio⟩] none).mgr.resource ≠
      (⟨⟨[], [], 0, 0⟩, [], [], []⟩ : DeviceManager).resource := by
  constructor
  · rfl
  · decide

/-- Claim C1 as amended: rollback is guaranteed exactly for the
allocation-phase failure — when `allocate_resources` itself fails (returning
`Overlap` because the allocator declined a request), every resource
allocated earlier in the same call has been freed and the whole manager,
allocator included, is returned in its pre-call state, with no
`set_resources` call made on the device.  (For `NonePIOAddress` after a
successful allocation, and for `AllocateIrq` and `Exist`, earlier
allocations are not freed — see the counterexample.) -/
theorem c1_amended (m : DeviceManager) (dev : Dev) (parent : Option Dev)
    (res upd : List IoResource) (m1 : DeviceManager) (irq : Option IrqResource)
    (h : m.allocate_resources res = (m1, upd, .error .Overlap)) :
    m.register_device dev parent res irq = ⟨m, upd, none, .error .Overlap⟩ := by
  have hm := allocate_resources_overlap_eq m res m1 upd h
  subst hm
  unfold DeviceManager.register_device
  rw [h]
  rfl

/-- Witness for C1 (amended): allocator with port range (0x50, 0x10) taken;
requesting (0x200, 8) then (0x50, 8) allocates the first, fails on the
second, and returns with the allocator restored. -/
theorem c1_witness :
    ((⟨⟨[(0x50, 0x10)], [], 0, 0⟩, [], [], []⟩ : DeviceManager).allocate_resources
        [⟨some 0x200, 8, .Pio⟩, ⟨some 0x50, 8, .Pio⟩] =
      (⟨⟨[(0x50, 0x10)], [], 0, 0⟩, [], [], []⟩,
        [⟨some 0x200, 8, .Pio⟩, ⟨none, 8, .Pio⟩], .error .Overlap)) ∧
    (⟨⟨[(0x50, 0x10)], [], 0, 0⟩, [], [], []⟩ : DeviceManager).register_device
        ⟨0, "d"⟩ none [⟨some 0x200, 8, .Pio⟩, ⟨some 0x50, 8, .Pio⟩] none =
      ⟨⟨⟨[(0x50, 0x10)], [], 0, 0⟩, [], [], []⟩,
        [⟨some 0x200, 8, .Pio⟩, ⟨none, 8, .Pio⟩], none, .error .Overlap⟩ :=
  ⟨by decide,
    c1_amended ⟨⟨[(0x50, 0x10)], [], 0, 0⟩, [], [], []⟩ ⟨0, "d"⟩ none
      [⟨some 0x200, 8, .Pio⟩, ⟨some 0x50, 8, .Pio⟩]
      [⟨some 0x200, 8, .Pio⟩, ⟨none, 8, .Pio⟩]
      ⟨⟨[(0x50, 0x10)], [], 0, 0⟩, [], [], []⟩ none (by decide)⟩

lemma allocate_irq_exhausted (a : SystemAllocator) (h : a.lastIrq < a.nextIrq) :
    a.allocate_irq = (none, a) := by
  unfold SystemAllocator.allocate_irq
  rw [if_neg (by omega)]

/-- Claim C9: with an "allocate any line" interrupt request and an exhausted
interrupt pool (`allocate_irq` returns `None`), `register_device` does not
fail on that account: `set_resources` is still invoked with
`Some (IrqResource None)` as the interrupt argument, and registration
proceeds to insert the descriptor. -/
theorem c9_irq_any_line (m m1 m2 : DeviceManager) (dev : Dev)
    (parent : Option Dev) (res upd : List IoResource)
    (h1 : m.allocate_resources res = (m1, upd, .ok ()))
    (h2 : m1.register_resource dev upd = (m2, .ok ()))
    (hirq : m2.resource.lastIrq < m2.resource.nextIrq)
    (hfresh : m2.devices.lookup dev.name = none) :
    (m.register_device dev parent res (some ⟨none⟩)).setRes =
      some (upd, some ⟨none⟩) ∧
    (m.register_device dev parent res (some ⟨none⟩)).result = .ok () ∧
    (m.register_device dev parent res (some ⟨none⟩)).mgr.devices =
      (dev.name, ⟨dev.name, dev, parent, upd⟩) :: m2.devices := by
  unfold DeviceManager.register_device
  rw [h1]
  simp only [regAfterAlloc]
  rw [h2]
  simp only [regAfterRR, allocate_irq_exhausted m2.resource hirq]
  unfold registerFinish
  dsimp only
  rw [hfresh]
  simp

/-- Witness for C9 at a concrete input: one port resource, interrupt pool
exhausted (`nextIrq = 1 > lastIrq = 0`). -/
theorem c9_witness :
    ((⟨⟨[], [], 1, 0⟩, [], [], []⟩ : DeviceManager).allocate_resources
        [⟨some 0x10, 4, .Pio⟩] =
      (⟨⟨[(0x10, 4)], [], 1, 0⟩, [], [], []⟩, [⟨some 0x10, 4, .Pio⟩], .ok ()) ∧
     (⟨⟨[(0x10, 4)], [], 1, 0⟩, [], [], []⟩ : DeviceManager).register_resource
        ⟨0, "d"⟩ [⟨some 0x10, 4, .Pio⟩] =
      (⟨⟨[(0x10, 4)], [], 1, 0⟩, [], [], [(⟨0x10, 4⟩, ⟨0, "d"⟩)]⟩, .ok ())) ∧
    ((⟨⟨[], [], 1, 0⟩, [], [], []⟩ : DeviceManager).register_device ⟨0, "d"⟩ none
        [⟨some 0x10, 4, .Pio⟩] (some ⟨none⟩)).setRes =
      some ([⟨some 0x10, 4, .Pio⟩], some ⟨none⟩) ∧
    ((⟨⟨[], [], 1, 0⟩, [], [], []⟩ : DeviceManager).register_device ⟨0, "d"⟩ none
        [⟨some 0x10, 4, .Pio⟩] (some ⟨none⟩)).result = .ok () :=
  ⟨⟨by decide, by decide⟩,
    (c9_irq_any_line ⟨⟨[], [], 1, 0⟩, [], [], []⟩
      ⟨⟨[(0x10, 4)], [], 1, 0⟩, [], [], []⟩
      ⟨⟨[(0x10, 4)], [], 1, 0⟩, [], [], [(⟨0x10, 4⟩, ⟨0, "d"⟩)]⟩
      ⟨0, "d"⟩ none [⟨some 0x10, 4, .Pio⟩] [⟨some 0x10, 4, .Pio⟩]
      (by decide) (by decide) (by decide) (by decide)).1,
    (c9_irq_any_line ⟨⟨[], [], 1, 0⟩, [], [], []⟩
      ⟨⟨[(0x10, 4)], [], 1, 0⟩, [], [], []⟩
      ⟨⟨[(0x10, 4)], [], 1, 0⟩, [], [], [(⟨0x10, 4⟩, ⟨0, "d"⟩)]⟩
      ⟨0, "d"⟩ none [⟨some 0x10, 4, .Pio⟩] [⟨some 0x10, 4, .Pio⟩]
      (by decide) (by decide) (by decide) (by decide)).2.1⟩

lemma allocate_irq_snd_pools (a : SystemAllocator) :
    (a.allocate_irq).2.ioAllocated = a.ioAllocated ∧
    (a.allocate_irq).2.mmioAllocated = a.mmioAllocated := by
  unfold SystemAllocator.allocate_irq
  split <;> simp

lemma register_device_ok_elim (m : DeviceManager) (dev : Dev) (parent : Option Dev)
    (res : List IoResource) (irq : Option IrqResource)
    (hok : (m.register_device dev parent res irq).result = .ok ()) :
    ∃ m1 upd m2 a3,
      m.allocate_resources res = (m1, upd, .ok ()) ∧
      m1.register_resource dev upd = (m2, .ok ()) ∧
      (a3 = m2.resource ∨ a3 = (m2.resource.allocate_irq).2) ∧
      m2.devices.lookup dev.name = none ∧
      (m.register_device dev parent res irq).mgr =
        { m2 with resource := a3,
                  devices := (dev.name, ⟨dev.name, dev, parent, upd⟩) :: m2.devices } ∧
      (m.register_device dev parent res irq).upd = upd := by
  unfold DeviceManager.register_device at hok ⊢
  cases h1 : m.allocate_resources res with
  | mk m1 pr =>
      obtain ⟨upd, r1⟩ := pr
      rw [h1] at hok
      cases r1 with
      | error e => simp [regAfterAlloc] at hok
      | ok v =>
          cases v
          simp only [regAfterAlloc] at hok ⊢
          cases h2 : m1.register_resource dev upd with
          | mk m2 r2 =>
              rw [h2] at hok
              cases r2 with
              | error e2 => simp [regAfterRR] at hok
              | ok v2 =>
                  cases v2
                  cases irq with
                  | none =>
                      simp only [regAfterRR] at hok ⊢
                      unfold registerFinish at hok ⊢
                      cases hl2 : m2.devices.lookup dev.name with
                      | some x => rw [hl2] at hok; simp at hok
                      | none =>
                          refine ⟨m1, upd, m2, m2.resource, rfl, h2, Or.inl rfl,
                            hl2, ?_, ?_⟩ <;> simp
                  | some irqr =>
                      obtain ⟨line⟩ := irqr
                      cases line with
                      | some l => simp [regAfterRR] at hok
                      | none =>
                          simp only [regAfterRR] at hok ⊢
                          unfold registerFinish at hok ⊢
                          dsimp only at hok ⊢
                          cases hl2 : m2.devices.lookup dev.name with
                          | some x => rw [hl2] at hok; simp at hok
                          | none =>
                              refine ⟨m1, upd, m2, (m2.resource.allocate_irq).2,
                                rfl, h2, Or.inr rfl, hl2, ?_, ?_⟩ <;> simp

/-- Counterexample to claim C5: registering with an "allocate any line"
interrupt request and then unregistering does NOT restore the allocator to
its pre-registration state: the interrupt line obtained during registration
is never freed by `unregister_device` (the address pools are restored, but
the interrupt-line state differs). -/
theorem c5_counterexample :
    ((⟨⟨[], [], 0, 0⟩, [], [], []⟩ : DeviceManager).register_device ⟨1, "a"⟩ none
        [⟨some 0x10, 8, .Pio⟩] (some ⟨none⟩)).result = .ok () ∧
    ((((⟨⟨[], [], 0, 0⟩, [], [], []⟩ : DeviceManager).register_device ⟨1, "a"⟩ none
        [⟨some 0x10, 8, .Pio⟩] (some ⟨none⟩)).mgr.unregister_device ⟨1, "a"⟩).2 =
      .ok ()) ∧
    ((((⟨⟨[], [], 0, 0⟩, [], [], []⟩ : DeviceManager).register_device ⟨1, "a"⟩ none
        [⟨some 0x10, 8, .Pio⟩] (some ⟨none⟩)).mgr.unregister_device ⟨1, "a"⟩).1.resource ≠
      (⟨⟨[], [], 0, 0⟩, [], [], []⟩ : DeviceManager).resource) := by
  refine ⟨by decide, by decide, by decide⟩

/-- Claim C5 as amended: after a successful `register_device`, a subsequent
`unregister_device` of the same device succeeds, removes the descriptor from
the registry, removes every range-map entry the registration inserted
(restoring both maps exactly) and frees every allocated address resource,
`PassthroughMemoryIO` reservations included, so both allocator address pools
equal their pre-registration state.  An interrupt line allocated during the
registration is NOT freed, so the allocator's interrupt-line state may
differ (see the counterexample). -/
theorem c5_amended (m : DeviceManager) (dev : Dev) (parent : Option Dev)
    (res : List IoResource) (irq : Option IrqResource)
    (hsp : SortedBus m.pio_bus) (hsm : SortedBus m.mmio_bus)
    (hok : (m.register_device dev parent res irq).result = .ok ()) :
    ((m.register_device dev parent res irq).mgr.unregister_device dev).2 = .ok () ∧
    ((m.register_device dev parent res irq).mgr.unregister_device dev).1.devices =
      m.devices ∧
    ((m.register_device dev parent res irq).mgr.unregister_device dev).1.pio_bus =
      m.pio_bus ∧
    ((m.register_device dev parent res irq).mgr.unregister_device dev).1.mmio_bus =
      m.mmio_bus ∧
    ((m.register_device dev parent res irq).mgr.unregister_device dev).1.resource.ioAllocated =
      m.resource.ioAllocated ∧
    ((m.register_device dev parent res irq).mgr.unregister_device dev).1.resource.mmioAllocated =
      m.resource.mmioAllocated := by
  obtain ⟨m1, upd, m2, a3, h1, h2, ha3, hlk, hmgr, hupd⟩ :=
    register_device_ok_elim m dev parent res irq hok
  obtain ⟨hl, hm1⟩ := allocate_resources_ok_elim m res m1 upd h1
  obtain ⟨hai, ham, _, _, hsome⟩ := allocLoop_okAll_spec res m.resource m1.resource upd hl
  obtain ⟨g1, g2, g3, g4, g5, g6⟩ := register_resource_ok_spec upd m1 m2 dev h2
  have hm1d : m1.devices = m.devices := by rw [hm1]
  have hm1p : m1.pio_bus = m.pio_bus := by rw [hm1]
  have hm1m : m1.mmio_bus = m.mmio_bus := by rw [hm1]
  have ha3io : a3.ioAllocated = m1.resource.ioAllocated := by
    rcases ha3 with rfl | rfl
    · rw [g1]
    · rw [(allocate_irq_snd_pools m2.resource).1, g1]
  have ha3mm : a3.mmioAllocated = m1.resource.mmioAllocated := by
    rcases ha3 with rfl | rfl
    · rw [g1]
    · rw [(allocate_irq_snd_pools m2.resource).2, g1]
  rw [hmgr]
  unfold DeviceManager.unregister_device
  have hrem : hmRemove ((dev.name, ⟨dev.name, dev, parent, upd⟩) :: m2.devices)
      dev.name = (m2.devices, some ⟨dev.name, dev, parent, upd⟩) := by
    simp [hmRemove]
  simp only [hrem]
  rw [removeEntries_spec upd _ hsome]
  simp only [DeviceManager.free_resources, freeResourcesAlloc_spec]
  refine ⟨by trivial, by rw [g2, hm1d], ?_, ?_, ?_, ?_⟩
  · show remFold _ (pioRanges upd) = m.pio_bus
    rw [g3, hm1p]
    exact insFold_remFold_cancel (pioRanges upd) m.pio_bus dev hsp (by rw [← hm1p]; exact g5)
  · show remFold _ (mmioRanges upd) = m.mmio_bus
    rw [g4, hm1m]
    exact insFold_remFold_cancel (mmioRanges upd) m.mmio_bus dev hsm (by rw [← hm1m]; exact g6)
  · show (pioPairs upd).foldl erasePair a3.ioAllocated = m.resource.ioAllocated
    rw [ha3io, hai]
    exact freeRestore (pioPairs upd) m.resource.ioAllocated
  · show (mmioPairs upd).foldl erasePair a3.mmioAllocated = m.resource.mmioAllocated
    rw [ha3mm, ham]
    exact freeRestore (mmioPairs upd) m.resource.mmioAllocated

/-- Witness for C5 (amended) at a concrete input. -/
theorem c5_witness :
    (SortedBus ((⟨⟨[], [], 0, 5⟩, [], [], []⟩ : DeviceManager)).pio_bus ∧
     SortedBus ((⟨⟨[], [], 0, 5⟩, [], [], []⟩ : DeviceManager)).mmio_bus ∧
     ((⟨⟨[], [], 0, 5⟩, [], [], []⟩ : DeviceManager).register_device ⟨1, "a"⟩ none
        [⟨some 0x10, 8, .Pio⟩, ⟨none, 0x100, .Mmio⟩, ⟨some 0x9000, 4, .PhysicalMmio⟩]
        (some ⟨none⟩)).result = .ok ()) ∧
    (((⟨⟨[], [], 0, 5⟩, [], [], []⟩ : DeviceManager).register_device ⟨1, "a"⟩ none
        [⟨some 0x10, 8, .Pio⟩, ⟨none, 0x100, .Mmio⟩, ⟨some 0x9000, 4, .PhysicalMmio⟩]
        (some ⟨none⟩)).mgr.unregister_device ⟨1, "a"⟩).2 = .ok () ∧
    (((⟨⟨[], [], 0, 5⟩, [], [], []⟩ : DeviceManager).register_device ⟨1, "a"⟩ none
        [⟨some 0x10, 8, .Pio⟩, ⟨none, 0x100, .Mmio⟩, ⟨some 0x9000, 4, .PhysicalMmio⟩]
        (some ⟨none⟩)).mgr.unregister_device ⟨1, "a"⟩).1.resource.ioAllocated = [] :=
  ⟨⟨by decide, by decide, by decide⟩,
    (c5_amended ⟨⟨[], [], 0, 5⟩, [], [], []⟩ ⟨1, "a"⟩ none
      [⟨some 0x10, 8, .Pio⟩, ⟨none, 0x100, .Mmio⟩, ⟨some 0x9000, 4, .PhysicalMmio⟩]
      (some ⟨none⟩) (by decide) (by decide) (by decide)).1,
    (c5_amended ⟨⟨[], [], 0, 5⟩, [], [], []⟩ ⟨1, "a"⟩ none
      [⟨some 0x10, 8, .Pio⟩, ⟨none, 0x100, .Mmio⟩, ⟨some 0x9000, 4, .PhysicalMmio⟩]
      (some ⟨none⟩) (by decide) (by decide) (by decide)).2.2.2.2.1⟩

/-- Counterexample to claim C6: with a device named "n" already registered,
a subsequent `register_device` call for a same-named device does NOT always
return `Exist` — a call whose `Pio` request lacks a base fails earlier with
`NonePIOAddress` (and a call whose resources collide fails with `Overlap`),
because the name-uniqueness check only runs after allocation and range
registration. -/
theorem c6_counterexample :
    ((⟨⟨[], [], 0, 0⟩, [], [], []⟩ : DeviceManager).register_device ⟨1, "n"⟩ none
        [⟨some 0x100, 8, .Pio⟩] none).result = .ok () ∧
    ((((⟨⟨[], [], 0, 0⟩, [], [], []⟩ : DeviceManager).register_device ⟨1, "n"⟩ none
        [⟨some 0x100, 8, .Pio⟩] none).mgr.devices.lookup "n").isSome = true) ∧
    (((⟨⟨[], [], 0, 0⟩, [], [], []⟩ : DeviceManager).register_device ⟨1, "n"⟩ none
        [⟨some 0x100, 8, .Pio⟩] none).mgr.register_device ⟨2, "n"⟩ none
        [⟨none, 8, .Pio⟩] none).result = .error .NonePIOAddress ∧
    (((⟨⟨[], [], 0, 0⟩, [], [], []⟩ : DeviceManager).register_device ⟨1, "n"⟩ none
        [⟨some 0x100, 8, .Pio⟩] none).mgr.register_device ⟨2, "n"⟩ none
        [⟨none, 8, .Pio⟩] none).result ≠ .error .Exist := by
  refine ⟨by decide, by decide, by decide, by decide⟩

/-- Claim C6 as amended: if a device with name N is already registered, a
subsequent `register_device` call for a same-named device that passes the
resource-allocation and range-map-insertion phases (and does not request a
specific interrupt line) returns `Exist`; the registry is unchanged (the
first device's descriptor is still there), every previously registered
range-map entry is still present, and each such entry still dispatches to
its device at its base address. -/
theorem c6_amended (m m1 m2 : DeviceManager) (dev : Dev) (parent : Option Dev)
    (res upd : List IoResource) (irq : Option IrqResource)
    (desc0 : DeviceDescriptor)
    (hreg : m.devices.lookup dev.name = some desc0)
    (h1 : m.allocate_resources res = (m1, upd, .ok ()))
    (h2 : m1.register_resource dev upd = (m2, .ok ()))
    (hirq : irq = none ∨ irq = some ⟨none⟩)
    (hsp : SortedBus m.pio_bus) (hsm : SortedBus m.mmio_bus) :
    (m.register_device dev parent res irq).result = .error .Exist ∧
    (m.register_device dev parent res irq).mgr.devices = m.devices ∧
    (∀ e ∈ m.pio_bus, e ∈ (m.register_device dev parent res irq).mgr.pio_bus) ∧
    (∀ e ∈ m.mmio_bus, e ∈ (m.register_device dev parent res irq).mgr.mmio_bus) ∧
    (∀ r d0, (r, d0) ∈ m.pio_bus → 0 < r.size →
      (m.register_device dev parent res irq).mgr.read r.base .Pio =
        ((m.register_device dev parent res irq).mgr, .ok (d0, r.base))) ∧
    (∀ r d0, (r, d0) ∈ m.mmio_bus → 0 < r.size →
      (m.register_device dev parent res irq).mgr.read r.base .Mmio =
        ((m.register_device dev parent res irq).mgr, .ok (d0, r.base))) := by
  obtain ⟨hl, hm1⟩ := allocate_resources_ok_elim m res m1 upd h1
  obtain ⟨g1, g2, g3, g4, g5, g6⟩ := register_resource_ok_spec upd m1 m2 dev h2
  have hm1d : m1.devices = m.devices := by rw [hm1]
  have hm1p : m1.pio_bus = m.pio_bus := by rw [hm1]
  have hm1m : m1.mmio_bus = m.mmio_bus := by rw [hm1]
  have hlk : m2.devices.lookup dev.name = some desc0 := by rw [g2, hm1d, hreg]
  have hout : (m.register_device dev parent res irq).result = .error .Exist ∧
      (m.register_device dev parent res irq).mgr.devices = m2.devices ∧
      (m.register_device dev parent res irq).mgr.pio_bus = m2.pio_bus ∧
      (m.register_device dev parent res irq).mgr.mmio_bus = m2.mmio_bus := by
    unfold DeviceManager.register_device
    rw [h1]
    simp only [regAfterAlloc]
    rw [h2]
    rcases hirq with rfl | rfl
    · simp only [regAfterRR]
      unfold registerFinish
      rw [hlk]
      simp
    · simp only [regAfterRR]
      unfold registerFinish
      dsimp only
      rw [hlk]
      simp
  obtain ⟨ho1, ho2, ho3, ho4⟩ := hout
  have hp2 : m2.pio_bus = insFold m.pio_bus (pioRanges upd) dev := by rw [g3, hm1p]
  have hm2 : m2.mmio_bus = insFold m.mmio_bus (mmioRanges upd) dev := by rw [g4, hm1m]
  have hokp : insOk m.pio_bus (pioRanges upd) dev = true := by rw [← hm1p]; exact g5
  have hokm : insOk m.mmio_bus (mmioRanges upd) dev = true := by rw [← hm1m]; exact g6
  have hsp2 : SortedBus (m.register_device dev parent res irq).mgr.pio_bus := by
    rw [ho3, hp2]
    exact insFold_sorted _ _ _ hsp
  have hsm2 : SortedBus (m.register_device dev parent res irq).mgr.mmio_bus := by
    rw [ho4, hm2]
    exact insFold_sorted _ _ _ hsm
  have hmemp : ∀ e ∈ m.pio_bus, e ∈ (m.register_device dev parent res irq).mgr.pio_bus := by
    intro e he
    obtain ⟨r0, d0⟩ := e
    rw [ho3, hp2]
    exact insFold_mem_preserved _ _ _ hsp hokp r0 d0 he
  have hmemm : ∀ e ∈ m.mmio_bus, e ∈ (m.register_device dev parent res irq).mgr.mmio_bus := by
    intro e he
    obtain ⟨r0, d0⟩ := e
    rw [ho4, hm2]
    exact insFold_mem_preserved _ _ _ hsm hokm r0 d0 he
  refine ⟨ho1, by rw [ho2, g2, hm1d], hmemp, hmemm, ?_, ?_⟩
  · intro r d0 hm0 hsz
    have hmem2 : (r, d0) ∈ (m.register_device dev parent res irq).mgr.pio_bus :=
      hmemp (r, d0) hm0
    have hfb := firstBeforeAux_reverse_max _ r.base r d0 hsp2 hmem2 (Nat.le_refl _)
      (fun e _ hle => hle)
    simp only [DeviceManager.read, DeviceManager.get_device,
      DeviceManager.first_before, hfb]
    rw [if_pos (by omega : r.base - r.base < r.size)]
  · intro r d0 hm0 hsz
    have hmem2 : (r, d0) ∈ (m.register_device dev parent res irq).mgr.mmio_bus :=
      hmemm (r, d0) hm0
    have hfb := firstBeforeAux_reverse_max _ r.base r d0 hsm2 hmem2 (Nat.le_refl _)
      (fun e _ hle => hle)
    simp only [DeviceManager.read, DeviceManager.get_device,
      DeviceManager.first_before, hfb]
    rw [if_pos (by omega : r.base - r.base < r.size)]

/-- Witness for C6 (amended) at a concrete input: "n" is registered at port
0x100; a second device named "n" requesting port 0x200 passes allocation and
insertion and fails with `Exist`, and the first registration still
dispatches at 0x100. -/
theorem c6_witness :
    ((⟨⟨[(0x100, 8)], [], 0, 0⟩,
        [("n", ⟨"n", ⟨1, "n"⟩, none, [⟨some 0x100, 8, .Pio⟩]⟩)], [],
        [(⟨0x100, 8⟩, ⟨1, "n"⟩)]⟩ : DeviceManager).devices.lookup "n" =
        some ⟨"n", ⟨1, "n"⟩, none, [⟨some 0x100, 8, .Pio⟩]⟩ ∧
      (⟨⟨[(0x100, 8)], [], 0, 0⟩,
        [("n", ⟨"n", ⟨1, "n"⟩, none, [⟨some 0x100, 8, .Pio⟩]⟩)], [],
        [(⟨0x100, 8⟩, ⟨1, "n"⟩)]⟩ : DeviceManager).allocate_resources
          [⟨some 0x200, 8, .Pio⟩] =
        (⟨⟨[(0x200, 8), (0x100, 8)], [], 0, 0⟩,
          [("n", ⟨"n", ⟨1, "n"⟩, none, [⟨some 0x100, 8, .Pio⟩]⟩)], [],
          [(⟨0x100, 8⟩, ⟨1, "n"⟩)]⟩, [⟨some 0x200, 8, .Pio⟩], .ok ())) ∧
    ((⟨⟨[(0x100, 8)], [], 0, 0⟩,
        [("n", ⟨"n", ⟨1, "n"⟩, none, [⟨some 0x100, 8, .Pio⟩]⟩)], [],
        [(⟨0x100, 8⟩, ⟨1, "n"⟩)]⟩ : DeviceManager).register_device ⟨2, "n"⟩ none
        [⟨some 0x200, 8, .Pio⟩] none).result = .error .Exist ∧
    ((⟨⟨[(0x100, 8)], [], 0, 0⟩,
        [("n", ⟨"n", ⟨1, "n"⟩, none, [⟨some 0x100, 8, .Pio⟩]⟩)], [],
        [(⟨0x100, 8⟩, ⟨1, "n"⟩)]⟩ : DeviceManager).register_device ⟨2, "n"⟩ none
        [⟨some 0x200, 8, .Pio⟩] none).mgr.read 0x100 .Pio =
      (((⟨⟨[(0x100, 8)], [], 0, 0⟩,
        [("n", ⟨"n", ⟨1, "n"⟩, none, [⟨some 0x100, 8, .Pio⟩]⟩)], [],
        [(⟨0x100, 8⟩, ⟨1, "n"⟩)]⟩ : DeviceManager).register_device ⟨2, "n"⟩ none
        [⟨some 0x200, 8, .Pio⟩] none).mgr, .ok (⟨1, "n"⟩, 0x100)) := by
  refine ⟨⟨by decide, by decide⟩, ?_, ?_⟩
  · exact (c6_amended _
      ⟨⟨[(0x200, 8), (0x100, 8)], [], 0, 0⟩,
        [("n", ⟨"n", ⟨1, "n"⟩, none, [⟨some 0x100, 8, .Pio⟩]⟩)], [],
        [(⟨0x100, 8⟩, ⟨1, "n"⟩)]⟩
      ⟨⟨[(0x200, 8), (0x100, 8)], [], 0, 0⟩,
        [("n", ⟨"n", ⟨1, "n"⟩, none, [⟨some 0x100, 8, .Pio⟩]⟩)], [],
        [(⟨0x100, 8⟩, ⟨1, "n"⟩), (⟨0x200, 8⟩, ⟨2, "n"⟩)]⟩
      ⟨2, "n"⟩ none [⟨some 0x200, 8, .Pio⟩] [⟨some 0x200, 8, .Pio⟩] none
      ⟨"n", ⟨1, "n"⟩, none, [⟨some 0x100, 8, .Pio⟩]⟩
      (by decide) (by decide) (by decide) (Or.inl rfl) (by decide) (by decide)).1
  · exact ((c6_amended _
      ⟨⟨[(0x200, 8), (0x100, 8)], [], 0, 0⟩,
        [("n", ⟨"n", ⟨1, "n"⟩, none, [⟨some 0x100, 8, .Pio⟩]⟩)], [],
        [(⟨0x100, 8⟩, ⟨1, "n"⟩)]⟩
      ⟨⟨[(0x200, 8), (0x100, 8)], [], 0, 0⟩,
        [("n", ⟨"n", ⟨1, "n"⟩, none, [⟨some 0x100, 8, .Pio⟩]⟩)], [],
        [(⟨0x100, 8⟩, ⟨1, "n"⟩), (⟨0x200, 8⟩, ⟨2, "n"⟩)]⟩
      ⟨2, "n"⟩ none [⟨some 0x200, 8, .Pio⟩] [⟨some 0x200, 8, .Pio⟩] none
      ⟨"n", ⟨1, "n"⟩, none, [⟨some 0x100, 8, .Pio⟩]⟩
      (by decide) (by decide) (by decide) (Or.inl rfl) (by decide) (by decide)).2.2.2.2.1
      ⟨0x100, 8⟩ ⟨1, "n"⟩ (by decide) (by decide))

end VmmDevice
